import Mathlib

set_option maxHeartbeats 1000000

/-!
Verification of the tele-convo persistence and query engine.

This file gives a shallow embedding of the core of `src/tele_convo/db.py` and
`src/tele_convo/server.py`: the cursor codec (base64 of a JSON object), the
filtered paginated message listing, the full-text index state machine driven by
the schema triggers, the media listing, and the JSON-RPC dispatcher, together
with theorems about the spec claims.

Modelling conventions:
- Python runtime values that originate from JSON are modelled by `JVal`.
- SQLite TEXT values are Lean `String`; the SQLite BINARY collation on TEXT
  (memcmp over UTF-8 bytes) coincides with the codepoint-lexicographic order
  of `String`, which is what the Mathlib `LinearOrder String` instance uses,
  because UTF-8 is order-preserving on codepoints.
- Machine integers are `Int` (SQLite INTEGER and Python int are unbounded for
  the purposes of this code path; Python ints are arbitrary precision).
- Fallible Python code is `Option`/`Except`; an uncaught Python exception is
  an `Except.error` carrying a `PyExc`.
-/

namespace TeleConvo

/-- Dynamic values: the subset of Python values that can arrive from a JSON
request or be produced by `json.loads`. Non-integer JSON numbers are kept as
their lexeme in `float`; no claim exercises float parameters. -/
inductive JVal where
  | null
  | bool (b : Bool)
  | int (n : Int)
  | float (lex : String)
  | str (s : String)
  | arr (items : List JVal)
  | obj (entries : List (String × JVal))

/-- Python exceptions relevant to the modelled code paths. The message
strings follow the CPython texts without their quote characters; no claim
depends on the exact text. -/
inductive PyExc where
  | typeError (msg : String)
  | valueError (msg : String)
deriving DecidableEq, Repr

/-- The character with code 123, an opening curly brace. -/
def lbrace : Char := Char.ofNat 123

/-- The character with code 125, a closing curly brace. -/
def rbrace : Char := Char.ofNat 125

/-- Decimal digit character for a value below ten. -/
def digitCh (d : Nat) : Char := Char.ofNat (48 + d)

/-- Fuel-bounded digit rendering; dividing by ten at every step, fuel one
past the value always suffices. -/
def natCharsF : Nat → Nat → List Char
  | 0, _ => []
  | fuel + 1, n =>
    if n < 10 then [digitCh n]
    else natCharsF fuel (n / 10) ++ [digitCh (n % 10)]

/-- Decimal representation of a natural number, most significant digit first;
matches the rendering used by Python repr and json.dumps for nonnegative ints. -/
def natChars (n : Nat) : List Char := natCharsF (n + 1) n

/-- Decimal representation of an integer, matching Python json.dumps. -/
def intChars (i : Int) : List Char :=
  if i < 0 then '-' :: natChars i.natAbs else natChars i.toNat

/-- Lowercase hexadecimal digit character. -/
def hexDigitCh (d : Nat) : Char :=
  if d < 10 then Char.ofNat (48 + d) else Char.ofNat (87 + d)

/-- Four lowercase hex digits, as in a JSON \u escape produced by Python. -/
def hex4 (n : Nat) : List Char :=
  [hexDigitCh (n / 4096 % 16), hexDigitCh (n / 256 % 16),
   hexDigitCh (n / 16 % 16), hexDigitCh (n % 16)]

/-- JSON \u escape for a codepoint, using a surrogate pair above 0xFFFF, as
json.dumps with its default ensure_ascii=True produces. -/
def uEscape (n : Nat) : List Char :=
  if n < 65536 then '\\' :: 'u' :: hex4 n
  else ('\\' :: 'u' :: hex4 (55296 + (n - 65536) / 1024)) ++
       ('\\' :: 'u' :: hex4 (56320 + (n - 65536) % 1024))

/-- Escaping of one character inside a JSON string literal, following
json.dumps with ensure_ascii=True: quote, backslash and the short control
escapes, \u00xx for other control characters, and \uXXXX for every
non-ASCII character. -/
def escapeJsonChar (c : Char) : List Char :=
  if c = '"' then ['\\', '"']
  else if c = '\\' then ['\\', '\\']
  else if c = '\n' then ['\\', 'n']
  else if c = '\r' then ['\\', 'r']
  else if c = '\t' then ['\\', 't']
  else if c.toNat = 8 then ['\\', 'b']
  else if c.toNat = 12 then ['\\', 'f']
  else if c.toNat < 32 || 126 < c.toNat then uEscape c.toNat
  else [c]

/-- A JSON string literal with quotes, as json.dumps renders it. -/
def jsonStrChars (s : String) : List Char :=
  '"' :: s.data.foldr (fun c acc => escapeJsonChar c ++ acc) ['"']

/-- Rendering of the dict built by encode_cursor in db.py, exactly as
json.dumps renders it with its default separators: the text
LBRACE "last_id": NUM, "last_date": STR RBRACE with a single space after each
colon and after the comma. -/
def dumpsCursorChars (lastId : Int) (lastDate : String) : List Char :=
  lbrace :: (jsonStrChars "last_id" ++ ':' :: ' ' :: intChars lastId ++
    ',' :: ' ' :: (jsonStrChars "last_date" ++ ':' :: ' ' ::
      jsonStrChars lastDate ++ [rbrace]))

/-- UTF-8 encoding of one character, bytes as naturals below 256; models
Python str.encode(). -/
def utf8EncodeChar (c : Char) : List Nat :=
  let n := c.toNat
  if n < 128 then [n]
  else if n < 2048 then [192 + n / 64, 128 + n % 64]
  else if n < 65536 then [224 + n / 4096, 128 + n / 64 % 64, 128 + n % 64]
  else [240 + n / 262144, 128 + n / 4096 % 64, 128 + n / 64 % 64, 128 + n % 64]

/-- UTF-8 encoding of a character list. -/
def utf8Encode (cs : List Char) : List Nat :=
  cs.foldr (fun c acc => utf8EncodeChar c ++ acc) []

/-- Whether a byte is a UTF-8 continuation byte. -/
def isCont (b : Nat) : Bool := 128 ≤ b && b < 192

/-- Decoding of one UTF-8 multi-byte sequence given its lead byte and the
remaining input, with validity checks (no overlong forms, no surrogates). -/
def utf8DecodeMB (b : Nat) : List Nat → Option (Char × List Nat)
  | [] => none
  | b2 :: bs2 =>
    if b < 194 then none
    else if b < 224 then
      if isCont b2 then some (Char.ofNat ((b - 192) * 64 + (b2 - 128)), bs2)
      else none
    else if b < 240 then
      match bs2 with
      | b3 :: bs3 =>
        let n := (b - 224) * 4096 + (b2 - 128) * 64 + (b3 - 128)
        if isCont b2 && isCont b3 && decide (2048 ≤ n) &&
            (decide (n < 55296) || decide (57343 < n)) then
          some (Char.ofNat n, bs3)
        else none
      | [] => none
    else if b < 245 then
      match bs2 with
      | b3 :: b4 :: bs4 =>
        let n := (b - 240) * 262144 + (b2 - 128) * 4096 + (b3 - 128) * 64 + (b4 - 128)
        if isCont b2 && isCont b3 && isCont b4 && decide (65536 ≤ n) &&
            decide (n < 1114112) then
          some (Char.ofNat n, bs4)
        else none
      | _ => none
    else none

/-- Fuel-bounded core of UTF-8 decoding; every step consumes at least one
byte, so fuel one past the input length always suffices. -/
def utf8DecodeF : Nat → List Nat → Option (List Char)
  | 0, _ => none
  | _ + 1, [] => some []
  | fuel + 1, b :: bs =>
    if b < 128 then (utf8DecodeF fuel bs).map (fun cs => Char.ofNat b :: cs)
    else
      match utf8DecodeMB b bs with
      | some cr => (utf8DecodeF fuel cr.2).map (fun cs => cr.1 :: cs)
      | none => none

/-- UTF-8 decoding with validity checks; models Python bytes.decode(), where
failure raises UnicodeDecodeError, a subclass of ValueError. -/
def utf8Decode (bs : List Nat) : Option (List Char) :=
  utf8DecodeF (bs.length + 1) bs

/-- Value of a base64 alphabet character, none for characters outside the
alphabet. -/
def b64CharVal (c : Char) : Option Nat :=
  let n := c.toNat
  if 65 ≤ n && n ≤ 90 then some (n - 65)
  else if 97 ≤ n && n ≤ 122 then some (n - 97 + 26)
  else if 48 ≤ n && n ≤ 57 then some (n - 48 + 52)
  else if n = 43 then some 62
  else if n = 47 then some 63
  else none

/-- Standard base64 alphabet character for a six-bit value. -/
def sextetChar (v : Nat) : Char :=
  if v < 26 then Char.ofNat (65 + v)
  else if v < 52 then Char.ofNat (97 + v - 26)
  else if v < 62 then Char.ofNat (48 + v - 52)
  else if v = 62 then '+' else '/'

/-- Base64 encoding of a byte list, with padding; models
base64.b64encode. -/
def b64EncodeBytes : List Nat → List Char
  | [] => []
  | [a] => [sextetChar (a / 4), sextetChar (a % 4 * 16), '=', '=']
  | [a, b] => [sextetChar (a / 4), sextetChar (a % 4 * 16 + b / 16),
               sextetChar (b % 16 * 4), '=']
  | a :: b :: c :: rest =>
    sextetChar (a / 4) :: sextetChar (a % 4 * 16 + b / 16) ::
    sextetChar (b % 16 * 4 + c / 64) :: sextetChar (c % 64) ::
    b64EncodeBytes rest

/-- Base64 decoding of four-character groups with terminal padding; none
models binascii.Error (a ValueError subclass) raised by base64.b64decode on
bad padding. On garbage that is not well-formed base64 the CPython routine
additionally discards characters outside the alphabet before grouping; no
claim depends on those inputs, and this model reports an error for them. -/
def b64DecodeChars : List Char → Option (List Nat)
  | [] => some []
  | c1 :: c2 :: c3 :: c4 :: rest =>
    match b64CharVal c1, b64CharVal c2 with
    | some v1, some v2 =>
      if c3 = '=' then
        if c4 = '=' && rest.isEmpty then some [v1 * 4 + v2 / 16] else none
      else
        match b64CharVal c3 with
        | some v3 =>
          if c4 = '=' then
            if rest.isEmpty then some [v1 * 4 + v2 / 16, v2 % 16 * 16 + v3 / 4]
            else none
          else
            match b64CharVal c4 with
            | some v4 =>
              (b64DecodeChars rest).map
                (fun tl => (v1 * 4 + v2 / 16) :: (v2 % 16 * 16 + v3 / 4) ::
                           (v3 % 4 * 64 + v4) :: tl)
            | none => none
        | none => none
    | _, _ => none
  | _ => none

/-- JSON whitespace characters accepted by json.loads. -/
def isJsonWs (c : Char) : Bool := c = ' ' || c = '\t' || c = '\n' || c = '\r'

/-- Drop leading JSON whitespace. -/
def skipWs (cs : List Char) : List Char := cs.dropWhile isJsonWs

/-- Whether a character is an ASCII decimal digit. -/
def isDigitCh (c : Char) : Bool := 48 ≤ c.toNat && c.toNat ≤ 57

/-- Numeric value of a digit run. -/
def charsToNat (cs : List Char) : Nat :=
  cs.foldl (fun a c => a * 10 + (c.toNat - 48)) 0

/-- Negation of a parsed JSON number. -/
def negNum : JVal → JVal
  | .int n => .int (-n)
  | .float lex => .float ("-" ++ lex)
  | v => v

/-- Exponent part of a JSON float; keeps only the lexeme. -/
def parseExpPart (lex : List Char) (cs : List Char) : Option (JVal × List Char) :=
  match cs with
  | c :: r =>
    if c = 'e' || c = 'E' then
      match r with
      | s :: r2 =>
        if s = '+' || s = '-' then
          let ds := r2.takeWhile isDigitCh
          if ds.isEmpty then none
          else some (.float (String.mk (lex ++ c :: s :: ds)), r2.dropWhile isDigitCh)
        else
          let ds := r.takeWhile isDigitCh
          if ds.isEmpty then none
          else some (.float (String.mk (lex ++ c :: ds)), r.dropWhile isDigitCh)
      | [] => none
    else some (.float (String.mk lex), cs)
  | [] => some (.float (String.mk lex), [])

/-- Fraction and exponent part of a JSON float. -/
def parseFloatTail (intPart : List Char) (cs : List Char) : Option (JVal × List Char) :=
  match cs with
  | '.' :: r =>
    let fs := r.takeWhile isDigitCh
    if fs.isEmpty then none
    else parseExpPart (intPart ++ '.' :: fs) (r.dropWhile isDigitCh)
  | _ => parseExpPart intPart cs

/-- Unsigned JSON number; leading zeros are rejected as json.loads does. -/
def parseNatNumber (cs : List Char) : Option (JVal × List Char) :=
  let ds := cs.takeWhile isDigitCh
  let rest := cs.dropWhile isDigitCh
  if ds.isEmpty then none
  else if 1 < ds.length && ds.head? = some '0' then none
  else
    match rest with
    | c :: _ =>
      if c = '.' || c = 'e' || c = 'E' then parseFloatTail ds rest
      else some (.int (charsToNat ds), rest)
    | [] => some (.int (charsToNat ds), [])

/-- Signed JSON number. -/
def parseNumber (cs : List Char) : Option (JVal × List Char) :=
  match cs with
  | c :: rest =>
    if c = '-' then (parseNatNumber rest).map (fun p => (negNum p.1, p.2))
    else parseNatNumber (c :: rest)
  | [] => none

/-- Whether a character is an ASCII hexadecimal digit. -/
def isHexDigitCh (c : Char) : Bool :=
  (48 ≤ c.toNat && c.toNat ≤ 57) || (65 ≤ c.toNat && c.toNat ≤ 70) ||
  (97 ≤ c.toNat && c.toNat ≤ 102)

/-- Hexadecimal value of a hex digit character. -/
def hexVal (c : Char) : Nat :=
  if c.toNat ≤ 57 then c.toNat - 48
  else if c.toNat ≤ 70 then c.toNat - 55
  else c.toNat - 87

/-- Decoding of a \u escape body: four hex digits, or a surrogate pair of
two \u escapes for an astral codepoint. Lone surrogate escapes, which
CPython tolerates, cannot inhabit a Lean Char and are rejected; no claim
depends on them. -/
def parseUEscape : List Char → Option (Char × List Char)
  | h1 :: h2 :: h3 :: h4 :: r1 =>
    if isHexDigitCh h1 && isHexDigitCh h2 && isHexDigitCh h3 && isHexDigitCh h4 then
      let n := 4096 * hexVal h1 + 256 * hexVal h2 + 16 * hexVal h3 + hexVal h4
      if n < 55296 || 57343 < n then some (Char.ofNat n, r1)
      else if n < 56320 then
        match r1 with
        | '\\' :: 'u' :: g1 :: g2 :: g3 :: g4 :: r2 =>
          if isHexDigitCh g1 && isHexDigitCh g2 && isHexDigitCh g3 && isHexDigitCh g4 then
            let m := 4096 * hexVal g1 + 256 * hexVal g2 + 16 * hexVal g3 + hexVal g4
            if 56320 ≤ m && m ≤ 57343 then
              some (Char.ofNat (65536 + (n - 55296) * 1024 + (m - 56320)), r2)
            else none
          else none
        | _ => none
      else none
    else none
  | _ => none

/-- Decoding of one backslash escape in a JSON string, returning the decoded
character and the remaining input. -/
def parseEscapeChar : List Char → Option (Char × List Char)
  | [] => none
  | e :: r =>
    if e = '"' || e = '\\' || e = '/' then some (e, r)
    else if e = 'b' then some (Char.ofNat 8, r)
    else if e = 'f' then some (Char.ofNat 12, r)
    else if e = 'n' then some ('\n', r)
    else if e = 'r' then some ('\r', r)
    else if e = 't' then some ('\t', r)
    else if e = 'u' then parseUEscape r
    else none

/-- Fuel-bounded body of a JSON string after the opening quote; returns the
decoded characters and the input past the closing quote. Every step consumes
at least one character, so fuel one past the input length always suffices.
Control characters are rejected as json.loads does in its default strict
mode. -/
def parseStrBodyF : Nat → List Char → Option (List Char × List Char)
  | 0, _ => none
  | _ + 1, [] => none
  | fuel + 1, c :: rest =>
    if c = '"' then some ([], rest)
    else if c = '\\' then
      match parseEscapeChar rest with
      | some er => (parseStrBodyF fuel er.2).map (fun p => (er.1 :: p.1, p.2))
      | none => none
    else if c.toNat < 32 then none
    else (parseStrBodyF fuel rest).map (fun p => (c :: p.1, p.2))

/-- Body of a JSON string after the opening quote. -/
def parseStrBody (cs : List Char) : Option (List Char × List Char) :=
  parseStrBodyF (cs.length + 1) cs

mutual

/-- Recursive JSON value parser with a fuel bound, modelling json.loads.
Every recursion step consumes input, so the fuel one past the input length
that jsonLoads supplies always suffices. -/
def parseValue : Nat → List Char → Option (JVal × List Char)
  | 0, _ => none
  | _ + 1, [] => none
  | fuel + 1, c :: rest =>
    if c = '"' then (parseStrBody rest).map (fun p => (.str (String.mk p.1), p.2))
    else if c = lbrace then parseObjBody fuel (skipWs rest)
    else if c = '[' then parseArrBody fuel (skipWs rest)
    else if c = 't' then
      match rest with
      | 'r' :: 'u' :: 'e' :: r => some (.bool true, r)
      | _ => none
    else if c = 'f' then
      match rest with
      | 'a' :: 'l' :: 's' :: 'e' :: r => some (.bool false, r)
      | _ => none
    else if c = 'n' then
      match rest with
      | 'u' :: 'l' :: 'l' :: r => some (.null, r)
      | _ => none
    else if c = '-' || isDigitCh c then parseNumber (c :: rest)
    else none
termination_by structural fuel => fuel

/-- Object body after the opening brace and whitespace. -/
def parseObjBody : Nat → List Char → Option (JVal × List Char)
  | 0, _ => none
  | _ + 1, [] => none
  | fuel + 1, c :: rest =>
    if c = rbrace then some (.obj [], rest)
    else (parseMembers fuel (c :: rest)).map (fun p => (.obj p.1, p.2))
termination_by structural fuel => fuel

/-- One or more comma-separated members up to the closing brace. -/
def parseMembers : Nat → List Char → Option (List (String × JVal) × List Char)
  | 0, _ => none
  | fuel + 1, cs =>
    match cs with
    | c0 :: r0 =>
      if c0 = '"' then
        match parseStrBody r0 with
        | some (k, r1) =>
          match skipWs r1 with
          | c1 :: r2 =>
            if c1 = ':' then
              match parseValue fuel (skipWs r2) with
              | some (v, r3) =>
                match skipWs r3 with
                | c2 :: r4 =>
                  if c2 = ',' then
                    match parseMembers fuel (skipWs r4) with
                    | some (ms, r5) => some ((String.mk k, v) :: ms, r5)
                    | none => none
                  else if c2 = rbrace then some ([(String.mk k, v)], r4)
                  else none
                | [] => none
              | none => none
            else none
          | [] => none
        | none => none
      else none
    | [] => none
termination_by structural fuel => fuel

/-- Array body after the opening bracket and whitespace. -/
def parseArrBody : Nat → List Char → Option (JVal × List Char)
  | 0, _ => none
  | _ + 1, [] => none
  | fuel + 1, c :: rest =>
    if c = ']' then some (.arr [], rest)
    else (parseItems fuel (c :: rest)).map (fun p => (.arr p.1, p.2))
termination_by structural fuel => fuel

/-- One or more comma-separated array items up to the closing bracket. -/
def parseItems : Nat → List Char → Option (List JVal × List Char)
  | 0, _ => none
  | fuel + 1, cs =>
    match parseValue fuel cs with
    | some (v, r1) =>
      match skipWs r1 with
      | c :: r2 =>
        if c = ',' then
          match parseItems fuel (skipWs r2) with
          | some (vs, r3) => some (v :: vs, r3)
          | none => none
        else if c = ']' then some ([v], r2)
        else none
      | [] => none
    | none => none
termination_by structural fuel => fuel

end

/-- Top level JSON parse, modelling json.loads: value surrounded by optional
whitespace and nothing else. Python dicts keep the last of duplicate keys;
this model keeps member order and the cursor code reads the first match, the
two agree on every input without duplicate keys and no claim uses one. -/
def jsonLoads (s : String) : Option JVal :=
  match parseValue ((skipWs s.data).length + 1) (skipWs s.data) with
  | some (v, rest) => if (skipWs rest).isEmpty then some v else none
  | none => none

/-- Transient cursor value object from db.py. -/
structure MessageCursor where
  last_id : Int
  last_date : String
deriving DecidableEq, Repr

/-- encode_cursor from db.py: json.dumps of the two-field dict, UTF-8
encoded, then base64. -/
def encode_cursor (cursor : MessageCursor) : String :=
  String.mk (b64EncodeBytes (utf8Encode (dumpsCursorChars cursor.last_id cursor.last_date)))

/-- CPython text of the TypeError raised by subscripting a non-dict value,
without the quote characters of the original message; no claim depends on
the exact text. -/
def subscriptErrMsg : JVal → String
  | .null => "NoneType object is not subscriptable"
  | .bool _ => "bool object is not subscriptable"
  | .int _ => "int object is not subscriptable"
  | .float _ => "float object is not subscriptable"
  | .str _ => "string indices must be integers"
  | .arr _ => "list indices must be integers or slices, not str"
  | .obj _ => ""

/-- decode_cursor from db.py. The except clause there catches ValueError,
KeyError and JSONDecodeError; base64, UTF-8 and JSON failures as well as
missing keys therefore yield the invalid result none, but subscripting a
decoded non-dict value raises TypeError, which the clause does not list, so
that exception escapes to the caller, modelled as Except.error. The two
extracted fields are returned as the raw decoded values, as the Python
dataclass performs no type check. -/
def decode_cursor (cursorStr : String) : Except PyExc (Option (JVal × JVal)) :=
  match b64DecodeChars cursorStr.data with
  | none => .ok none
  | some bytes =>
    match utf8Decode bytes with
    | none => .ok none
    | some chars =>
      match jsonLoads (String.mk chars) with
      | none => .ok none
      | some (.obj entries) =>
        match entries.lookup "last_id" with
        | none => .ok none
        | some idv =>
          match entries.lookup "last_date" with
          | none => .ok none
          | some dv => .ok (some (idv, dv))
      | some v => .error (.typeError (subscriptErrMsg v))

/-- The characters of the cursor JSON after the opening brace, for a date
string that json.dumps emits verbatim. -/
def cursorBody (i : Int) (d : String) : List Char :=
  '"' :: ("last_id".data ++ '"' :: ':' :: ' ' :: (intChars i ++ ',' :: ' ' ::
    '"' :: ("last_date".data ++ '"' :: ':' :: ' ' :: '"' ::
      (d.data ++ '"' :: [rbrace]))))

/-- The JSON value carried by a cursor token. -/
def cursorJsonObj (i : Int) (d : String) : JVal :=
  .obj [("last_id", .int i), ("last_date", .str d)]

/-- Row of the chats table. -/
structure ChatRow where
  id : Int
  title : String
  username : Option String
deriving DecidableEq, Repr

/-- Row of the users table. -/
structure UserRow where
  id : Int
  username : Option String
  first_name : String
  last_name : Option String
deriving DecidableEq, Repr

/-- Row of the messages table. The date column holds the ISO-8601 text that
insert_message stores via datetime.isoformat; the Python code parses it back
with datetime.fromisoformat when building Message objects and re-serializes
it with isoformat when deriving the next cursor, which is the identity on
the canonical strings this system stores, so the model keeps the text. -/
structure MsgRow where
  id : Int
  chat_id : Int
  sender_id : Int
  date : String
  text : Option String
  reply_to_msg_id : Option Int
  is_forwarded : Bool
  raw_json : Option String
deriving DecidableEq, Repr

/-- Row of the media table. -/
structure MediaRow where
  msg_id : Int
  chat_id : Int
  media_type : String
  media_id : String
deriving DecidableEq, Repr

/-- The persistent store: the four tables plus the derived full-text index,
whose documents are (rowid, text) pairs maintained by the schema triggers. -/
structure DB where
  chats : List ChatRow
  users : List UserRow
  msgs : List MsgRow
  fts : List (Int × Option String)
  media : List MediaRow
deriving DecidableEq, Repr

/-- The store right after schema initialization. -/
def emptyDB : DB := ⟨[], [], [], [], []⟩

/-- Python truthiness of a JSON-derived value. Float truthiness is
approximated as true; no claim passes float parameters. -/
def jvalTruthy : JVal → Bool
  | .null => false
  | .bool b => b
  | .int n => n != 0
  | .float _ => true
  | .str s => s ≠ ""
  | .arr l => !l.isEmpty
  | .obj l => !l.isEmpty

/-- Python str() of a JSON-derived value, as interpolated into a LIKE
pattern by an f-string. The list and dict renderings are placeholders; no
claim exercises them. -/
def pyStr : JVal → String
  | .null => "None"
  | .bool b => if b then "True" else "False"
  | .int n => String.mk (intChars n)
  | .float lex => lex
  | .str s => s
  | .arr _ => "list"
  | .obj _ => "dict"

/-- Integer value of SQLite numeric-text conversion, restricted to integer
literals with an optional sign; REAL-shaped text is outside the model and no
claim exercises it. -/
def parseIntText : List Char → Option Int
  | '-' :: ds =>
    if ds ≠ [] && ds.all isDigitCh then some (-(charsToNat ds : Int)) else none
  | '+' :: ds =>
    if ds ≠ [] && ds.all isDigitCh then some ((charsToNat ds : Int)) else none
  | ds =>
    if ds ≠ [] && ds.all isDigitCh then some ((charsToNat ds : Int)) else none

/-- SQLite comparison of an INTEGER column with a bound parameter for
equality. Text that converts under INTEGER affinity compares numerically;
other text sorts after every INTEGER, NULL compares unknown, and the
unbindable and REAL cases are outside the model with no claim reaching
them. -/
def eqIntCol (col : Int) : JVal → Bool
  | .int n => col == n
  | .bool b => col == (if b then 1 else 0)
  | .str s =>
    match parseIntText s.data with
    | some n => col == n
    | none => false
  | .null => false
  | .float _ => false
  | .arr _ => false
  | .obj _ => false

/-- SQLite comparison col < parameter for an INTEGER column. -/
def ltIntCol (col : Int) : JVal → Bool
  | .int n => decide (col < n)
  | .bool b => decide (col < (if b then 1 else 0))
  | .str s =>
    match parseIntText s.data with
    | some n => decide (col < n)
    | none => true
  | .null => false
  | .float _ => false
  | .arr _ => false
  | .obj _ => false

/-- Text that a parameter compares as against a TEXT column: TEXT affinity
converts numeric operands to their text rendering; NULL yields no value, and
the unbindable cases are outside the model. -/
def textAffinity : JVal → Option String
  | .str s => some s
  | .int n => some (String.mk (intChars n))
  | .bool b => some (if b then "1" else "0")
  | .float lex => some lex
  | .null => none
  | .arr _ => none
  | .obj _ => none

/-- SQLite comparison col = parameter for a TEXT column. -/
def eqTextCol (col : String) (v : JVal) : Bool :=
  match textAffinity v with
  | some s => col == s
  | none => false

/-- SQLite comparison col < parameter for a TEXT column, under the BINARY
collation, which is the String order. -/
def ltTextCol (col : String) (v : JVal) : Bool :=
  match textAffinity v with
  | some s => decide (col.data < s.data)
  | none => false

/-- SQLite comparison col >= parameter for a TEXT column. -/
def geTextCol (col : String) (v : JVal) : Bool :=
  match textAffinity v with
  | some s => decide (s.data ≤ col.data)
  | none => false

/-- SQLite comparison col <= parameter for a TEXT column. -/
def leTextCol (col : String) (v : JVal) : Bool :=
  match textAffinity v with
  | some s => decide (col.data ≤ s.data)
  | none => false

/-- ASCII case folding, as SQLite LIKE applies to ASCII letters. -/
def foldAscii (c : Char) : Char :=
  if 65 ≤ c.toNat && c.toNat ≤ 90 then Char.ofNat (c.toNat + 32) else c

/-- Fuel-bounded LIKE matching core; every step shortens the pattern or the
subject, so fuel one past their combined length always suffices. -/
def likeMatchF : Nat → List Char → List Char → Bool
  | 0, _, _ => false
  | _ + 1, [], [] => true
  | _ + 1, [], _ :: _ => false
  | fuel + 1, '%' :: ps, s =>
    likeMatchF fuel ps s ||
      (match s with
       | [] => false
       | _ :: s2 => likeMatchF fuel ('%' :: ps) s2)
  | fuel + 1, '_' :: ps, s =>
    match s with
    | [] => false
    | _ :: s2 => likeMatchF fuel ps s2
  | fuel + 1, p :: ps, s =>
    match s with
    | [] => false
    | c :: s2 => foldAscii p == foldAscii c && likeMatchF fuel ps s2

/-- SQLite LIKE matching with percent and underscore wildcards,
case-insensitive for ASCII letters. -/
def likeMatch (p s : List Char) : Bool :=
  likeMatchF (p.length + s.length + 1) p s

/-- The condition text LIKE percent-keyword-percent, where the keyword is
interpolated by str(); NULL text never matches. -/
def likeTextCond (kw : JVal) (t : Option String) : Bool :=
  match t with
  | none => false
  | some s => likeMatch ('%' :: ((pyStr kw).data ++ ['%'])) s.data

/-- Parameters of get_messages_with_filters and count_messages as passed by
the dispatcher: dynamically typed, Python None modelled as none. -/
structure MsgFilters where
  chat_id : Option JVal := none
  sender_id : Option JVal := none
  keyword : Option JVal := none
  date_from : Option JVal := none
  date_to : Option JVal := none

/-- The WHERE clause that both get_messages_with_filters and count_messages
build: one conjunct per supplied predicate, with chat_id and sender_id
guarded by an is-not-None check and keyword and the date bounds guarded by
truthiness, exactly as the Python condition-list construction does. -/
def msgConds (f : MsgFilters) (m : MsgRow) : Bool :=
  (match f.chat_id with
   | some v => eqIntCol m.chat_id v
   | none => true) &&
  (match f.sender_id with
   | some v => eqIntCol m.sender_id v
   | none => true) &&
  (match f.keyword with
   | some v => if jvalTruthy v then likeTextCond v m.text else true
   | none => true) &&
  (match f.date_from with
   | some v => if jvalTruthy v then geTextCol m.date v else true
   | none => true) &&
  (match f.date_to with
   | some v => if jvalTruthy v then leTextCol m.date v else true
   | none => true)

/-- The cursor predicate date < last_date OR (date = last_date AND
id < last_id), with the two decoded fields bound as SQL parameters. -/
def cursorCond (cur : JVal × JVal) (m : MsgRow) : Bool :=
  ltTextCol m.date cur.2 || (eqTextCol m.date cur.2 && ltIntCol m.id cur.1)

/-- Sort key of ORDER BY date DESC, id DESC. -/
def msgKey (m : MsgRow) : Lex (String × Int) := toLex (m.date, m.id)

/-- Whether a may precede b in the descending order. -/
def msgGe (a b : MsgRow) : Prop := msgKey b ≤ msgKey a

instance : DecidableRel msgGe := fun a b =>
  decidable_of_iff (b.date.data < a.date.data ∨ (b.date = a.date ∧ b.id ≤ a.id))
    (by
      rw [msgGe, msgKey, msgKey, Prod.Lex.le_iff]
      constructor
      · rintro (h | h)
        · exact Or.inl (String.lt_iff_toList_lt.mpr h)
        · exact Or.inr h
      · rintro (h | h)
        · exact Or.inl (String.lt_iff_toList_lt.mp h)
        · exact Or.inr h)

instance : IsTotal MsgRow msgGe := ⟨fun a b => le_total (msgKey b) (msgKey a)⟩

instance : IsTrans MsgRow msgGe := ⟨fun _ _ _ h1 h2 => le_trans h2 h1⟩

/-- Strictly descending order on the (date, id) key. -/
def msgGt (a b : MsgRow) : Prop := msgKey b < msgKey a

instance : DecidableRel msgGt := fun a b =>
  decidable_of_iff (b.date.data < a.date.data ∨ (b.date = a.date ∧ b.id < a.id))
    (by
      rw [msgGt, msgKey, msgKey, Prod.Lex.lt_iff]
      constructor
      · rintro (h | h)
        · exact Or.inl (String.lt_iff_toList_lt.mpr h)
        · exact Or.inr h
      · rintro (h | h)
        · exact Or.inl (String.lt_iff_toList_lt.mp h)
        · exact Or.inr h)

instance : IsAntisymm MsgRow msgGt :=
  ⟨fun _ _ h1 h2 => absurd h1 (lt_asymm h2)⟩

/-- The rows of the messages table in the order ORDER BY date DESC, id DESC
returns them. Distinct rows never tie because id is the primary key, so any
correct sort realizes the SQL ordering. -/
def sortMsgsDesc (l : List MsgRow) : List MsgRow := List.insertionSort msgGe l

/-- Result shape of get_messages_with_filters. -/
structure MsgPage where
  messages : List MsgRow
  has_more : Bool
  next_cursor : Option String
deriving DecidableEq, Repr

/-- The cursor prologue of get_messages_with_filters: decode the token when
one was supplied and it is truthy; an exception from decode_cursor
propagates. -/
def cursorDecodeStep (cursor : Option String) : Except PyExc (Option (JVal × JVal)) :=
  match cursor with
  | some s => if s ≠ "" then decode_cursor s else pure none
  | none => pure none

/-- The cursor conjunct of the WHERE clause: present exactly when a cursor
was decoded. -/
def afterCursor (co : Option (JVal × JVal)) (m : MsgRow) : Bool :=
  match co with
  | some cur => cursorCond cur m
  | none => true

/-- get_messages_with_filters from db.py: decode the cursor when the token
is truthy, AND the cursor predicate onto the filter conditions, fetch
limit + 1 rows ordered by date DESC, id DESC, truncate to limit, and derive
the next cursor from the last returned row. A TypeError escaping
decode_cursor propagates to the caller. -/
def get_messages_with_filters (db : DB) (f : MsgFilters) (limit : Nat)
    (cursor : Option String) : Except PyExc MsgPage := do
  let cursorObj ← cursorDecodeStep cursor
  let pred := fun m => msgConds f m && afterCursor cursorObj m
  let rows := (sortMsgsDesc (db.msgs.filter pred)).take (limit + 1)
  let has_more := decide (limit < rows.length)
  let messages := if has_more then rows.take limit else rows
  let next_cursor :=
    if has_more then
      match messages.getLast? with
      | some lastMsg => some (encode_cursor ⟨lastMsg.id, lastMsg.date⟩)
      | none => none
    else none
  pure ⟨messages, has_more, next_cursor⟩

/-- count_messages from db.py: COUNT over the same WHERE clause, with no
cursor. -/
def count_messages (db : DB) (f : MsgFilters) : Int :=
  ((db.msgs.filter (msgConds f)).length : Int)

/-- Fuel-bounded client pagination loop: call get_messages_with_filters,
and while has_more is set follow next_cursor, concatenating the pages.
Every productive page consumes at least one row when the limit is positive,
so fuel one past the table size always suffices. -/
def paginateMessagesF : Nat → DB → MsgFilters → Nat → Option String →
    Except PyExc (List MsgRow)
  | 0, _, _, _, _ => .ok []
  | fuel + 1, db, f, limit, cursor => do
    let page ← get_messages_with_filters db f limit cursor
    if page.has_more then
      let rest ← paginateMessagesF fuel db f limit page.next_cursor
      pure (page.messages ++ rest)
    else
      pure page.messages

/-- The pagination protocol of the spec: start with no cursor and follow
next_cursor until has_more is false. -/
def paginateMessages (db : DB) (f : MsgFilters) (limit : Nat) :
    Except PyExc (List MsgRow) :=
  paginateMessagesF (db.msgs.length + 1) db f limit none

/-- insert_message from db.py: a plain INSERT; the primary key makes a
duplicate id an IntegrityError, in which case nothing is inserted and the
after-insert trigger does not run. On success the messages_ai trigger adds
the (id, text) document to the full-text index in the same transaction. -/
def insert_message (db : DB) (m : MsgRow) : Option DB :=
  if db.msgs.any (fun r => r.id == m.id) then none
  else some { db with msgs := db.msgs ++ [m], fts := db.fts ++ [(m.id, m.text)] }

/-- insert_or_update_chat from db.py: INSERT ON CONFLICT(id) DO UPDATE, last
writer wins for title and username. -/
def insert_or_update_chat (db : DB) (c : ChatRow) : DB :=
  if db.chats.any (fun r => r.id == c.id) then
    { db with chats := db.chats.map (fun r => if r.id == c.id then c else r) }
  else { db with chats := db.chats ++ [c] }

/-- SQL DELETE FROM messages WHERE id = ?, together with the messages_ad
trigger from the schema DDL in _init_schema, which removes the document with
the deleted rowid from the full-text index in the same transaction. fts5
rowids are unique, so removal is modelled by filtering out the matching
entry. -/
def deleteMessageSql (db : DB) (mid : Int) : DB :=
  { db with msgs := db.msgs.filter (fun r => ¬r.id == mid),
            fts := db.fts.filter (fun e => ¬e.1 == mid) }

/-- SQL UPDATE messages SET text = ? WHERE id = ?, together with the
messages_au trigger from the schema DDL, which deletes the old document and
inserts the new one in the same transaction. The core issues no UPDATEs
itself; this is the transition the trigger exists to keep consistent,
restricted to the text column, the only column the index derives from. -/
def updateMessageTextSql (db : DB) (mid : Int) (newText : Option String) : DB :=
  if db.msgs.any (fun r => r.id == mid) then
    { db with
      msgs := db.msgs.map (fun r => if r.id == mid then { r with text := newText } else r),
      fts := db.fts.filter (fun e => ¬e.1 == mid) ++ [(mid, newText)] }
  else db

/-- The write operations that touch the messages table and hence fire the
index-maintenance triggers. -/
inductive MsgOp where
  | ins (m : MsgRow)
  | del (mid : Int)
  | upd (mid : Int) (newText : Option String)

/-- One step of the message-table state machine; a failed insert (duplicate
primary key) raises IntegrityError to the writer and leaves the store
unchanged. -/
def applyMsgOp (db : DB) : MsgOp → DB
  | .ins m => (insert_message db m).getD db
  | .del mid => deleteMessageSql db mid
  | .upd mid t => updateMessageTextSql db mid t

/-- Applying a sequence of write operations from a starting store. -/
def applyMsgOps (db : DB) (ops : List MsgOp) : DB := ops.foldl applyMsgOp db

/-- Whether a character starts or extends an fts5 token. -/
def isTokenChar (c : Char) : Bool :=
  (48 ≤ c.toNat && c.toNat ≤ 57) || (65 ≤ c.toNat && c.toNat ≤ 90) ||
  (97 ≤ c.toNat && c.toNat ≤ 122) || 128 ≤ c.toNat

/-- Fuel-bounded tokenizer core; every step consumes at least one character,
so fuel one past the input length always suffices. -/
def tokenizeFoldF : Nat → List Char → List (List Char)
  | 0, _ => []
  | _ + 1, [] => []
  | fuel + 1, c :: cs =>
    if isTokenChar c then
      ((c :: cs.takeWhile isTokenChar).map foldAscii) ::
        tokenizeFoldF fuel (cs.dropWhile isTokenChar)
    else tokenizeFoldF fuel cs

/-- ASCII-level model of the fts5 unicode61 tokenizer: maximal runs of
alphanumeric characters, ASCII case folded; non-ASCII codepoints are treated
as token characters. -/
def tokenizeFold (cs : List Char) : List (List Char) :=
  tokenizeFoldF (cs.length + 1) cs

/-- MATCH of one document against a single-term query; the full fts5 query
syntax (boolean operators, phrases, prefixes) is outside the model, and
every claim searches a single term. A NULL document holds no tokens. -/
def ftsTermMatch (q : String) (t : Option String) : Bool :=
  match t with
  | none => false
  | some s => (tokenizeFold s.data).contains (q.data.map foldAscii)

/-- Result shape of search_messages_fulltext. -/
structure SearchResult where
  messages : List MsgRow
  count : Nat
  has_more : Bool
deriving DecidableEq, Repr

/-- search_messages_fulltext from db.py: messages joined to full-text
matches of the query on m.id = rowid; when either date bound is truthy both
bounds are applied, the absent or falsy one replaced by a wide default via
the Python or-expression; ordered by date DESC, id DESC, LIMIT limit with no
lookahead; has_more is the approximation count equals limit. -/
def search_messages_fulltext (db : DB) (q : String)
    (date_from date_to : Option JVal) (limit : Nat) : SearchResult :=
  let dfTruthy := match date_from with
    | some v => jvalTruthy v
    | none => false
  let dtTruthy := match date_to with
    | some v => jvalTruthy v
    | none => false
  let dfVal : JVal := match date_from with
    | some v => if jvalTruthy v then v else .str "0001-01-01T00:00:00"
    | none => .str "0001-01-01T00:00:00"
  let dtVal : JVal := match date_to with
    | some v => if jvalTruthy v then v else .str "9999-12-31T23:59:59"
    | none => .str "9999-12-31T23:59:59"
  let cond := fun (m : MsgRow) =>
    db.fts.any (fun e => e.1 == m.id && ftsTermMatch q e.2) &&
    (if dfTruthy || dtTruthy then geTextCol m.date dfVal && leTextCol m.date dtVal
     else true)
  let rows := (sortMsgsDesc (db.msgs.filter cond)).take limit
  ⟨rows, rows.length, rows.length == limit⟩

/-- Result shape of get_media_with_filters. -/
structure MediaPage where
  media : List MediaRow
  has_more : Bool
  next_cursor : Option Int
deriving DecidableEq, Repr

/-- Whether a may precede b in ORDER BY msg_id DESC. -/
def mediaGe (a b : MediaRow) : Prop := b.msg_id ≤ a.msg_id

instance : DecidableRel mediaGe :=
  fun a b => inferInstanceAs (Decidable (b.msg_id ≤ a.msg_id))

instance : IsTotal MediaRow mediaGe := ⟨fun a b => le_total b.msg_id a.msg_id⟩

instance : IsTrans MediaRow mediaGe := ⟨fun _ _ _ h1 h2 => le_trans h2 h1⟩

/-- Media rows in ORDER BY msg_id DESC order. SQL leaves the relative order
of rows sharing msg_id unspecified; the model fixes the stable
insertion-sort order, and no claim depends on tie order. -/
def sortMediaDesc (l : List MediaRow) : List MediaRow := List.insertionSort mediaGe l

/-- get_media_with_filters from db.py: the integer cursor is guarded by
truthiness, so a cursor of 0 adds no msg_id predicate; limit + 1 lookahead
as for messages, with the next cursor taken from the last returned row. -/
def get_media_with_filters (db : DB) (chat_id : Option JVal)
    (media_type : Option JVal) (limit : Nat) (cursor : Option Int) : MediaPage :=
  let pred := fun (r : MediaRow) =>
    (match chat_id with
     | some v => eqIntCol r.chat_id v
     | none => true) &&
    (match media_type with
     | some v => if jvalTruthy v then eqTextCol r.media_type v else true
     | none => true) &&
    (match cursor with
     | some cur => if cur ≠ 0 then decide (r.msg_id < cur) else true
     | none => true)
  let rows := (sortMediaDesc (db.media.filter pred)).take (limit + 1)
  let has_more := decide (limit < rows.length)
  let media := if has_more then rows.take limit else rows
  let next_cursor :=
    if has_more then
      match media.getLast? with
      | some lastM => some lastM.msg_id
      | none => none
    else none
  ⟨media, has_more, next_cursor⟩

/-- insert_media from db.py: INSERT OR REPLACE keyed by (msg_id, chat_id). -/
def insert_media (db : DB) (r : MediaRow) : DB :=
  if db.media.any (fun x => x.msg_id == r.msg_id && x.chat_id == r.chat_id) then
    { db with media := (db.media.map
        (fun x => if x.msg_id == r.msg_id && x.chat_id == r.chat_id then r else x)) }
  else { db with media := db.media ++ [r] }

/-- Result shape of search_users. -/
structure UsersPage where
  users : List UserRow
  has_more : Bool
deriving DecidableEq, Repr

/-- Sort key of ORDER BY first_name, last_name: ascending, with a NULL
last_name ordered before any text. -/
def userKey (u : UserRow) : Lex (String × WithBot String) :=
  toLex (u.first_name,
    match u.last_name with
    | some s => (s : WithBot String)
    | none => ⊥)

/-- Whether a may precede b in ORDER BY first_name, last_name. -/
def userLe (a b : UserRow) : Prop := userKey a ≤ userKey b

def optLastLe : Option String → Option String → Bool
  | none, _ => true
  | some _, none => false
  | some x, some y => decide (x.data ≤ y.data)

instance : DecidableRel userLe := fun a b =>
  decidable_of_iff
    (a.first_name.data < b.first_name.data ∨ (a.first_name = b.first_name ∧
      optLastLe a.last_name b.last_name = true))
    (by
      rw [userLe, userKey, userKey, Prod.Lex.le_iff]
      constructor
      · rintro (h | ⟨h1, h2⟩)
        · exact Or.inl (String.lt_iff_toList_lt.mpr h)
        · refine Or.inr ⟨h1, ?_⟩
          revert h2
          rcases a.last_name with _ | x <;> rcases b.last_name with _ | y <;>
            intro h2
          · exact le_refl _
          · exact bot_le
          · exact absurd h2 (by simp [optLastLe])
          · simp only [optLastLe, decide_eq_true_eq] at h2
            exact WithBot.coe_le_coe.mpr (String.le_iff_toList_le.mpr h2)
      · rintro (h | ⟨h1, h2⟩)
        · exact Or.inl (String.lt_iff_toList_lt.mp h)
        · refine Or.inr ⟨h1, ?_⟩
          revert h2
          rcases a.last_name with _ | x <;> rcases b.last_name with _ | y <;>
            intro h2
          · rfl
          · rfl
          · exact absurd h2 (WithBot.not_coe_le_bot x)
          · simp only [optLastLe, decide_eq_true_eq]
            exact String.le_iff_toList_le.mp (WithBot.coe_le_coe.mp h2))

instance : IsTotal UserRow userLe := ⟨fun a b => le_total (userKey a) (userKey b)⟩

instance : IsTrans UserRow userLe := ⟨fun _ _ _ h1 h2 => le_trans h1 h2⟩

/-- User rows in ORDER BY first_name, last_name order; ties are unspecified
by SQL and fixed by the stable sort, and no claim depends on them. -/
def sortUsersAsc (l : List UserRow) : List UserRow := List.insertionSort userLe l

/-- search_users from db.py: when the keyword is truthy, a LIKE disjunction
over username, first_name and last_name with the interpolated pattern (a
NULL column never matches); limit + 1 lookahead; next_cursor is always
absent for users. -/
def search_users (db : DB) (keyword : Option JVal) (limit : Nat) : UsersPage :=
  let pred := fun (u : UserRow) =>
    match keyword with
    | some v =>
      if jvalTruthy v then
        let pat := '%' :: ((pyStr v).data ++ ['%'])
        (match u.username with
         | some s => likeMatch pat s.data
         | none => false) ||
        likeMatch pat u.first_name.data ||
        (match u.last_name with
         | some s => likeMatch pat s.data
         | none => false)
      else true
    | none => true
  let rows := (sortUsersAsc (db.users.filter pred)).take (limit + 1)
  let has_more := decide (limit < rows.length)
  let users := if has_more then rows.take limit else rows
  ⟨users, has_more⟩

/-- Whether a may precede b in ORDER BY title. -/
def chatLe (a b : ChatRow) : Prop := a.title ≤ b.title

instance : DecidableRel chatLe := fun a b =>
  decidable_of_iff (a.title.data ≤ b.title.data)
    (by rw [chatLe]; exact String.le_iff_toList_le.symm)

instance : IsTotal ChatRow chatLe := ⟨fun a b => le_total a.title b.title⟩

instance : IsTrans ChatRow chatLe := ⟨fun _ _ _ h1 h2 => le_trans h1 h2⟩

/-- get_all_chats from db.py: every chat row ordered by title; tie order is
unspecified by SQL and fixed by the stable sort. -/
def get_all_chats (db : DB) : List ChatRow := List.insertionSort chatLe db.chats

/-- JSON-RPC error code for a transport parse error. -/
def JSONRPC_PARSE_ERROR : Int := -32700

/-- JSON-RPC error code for an invalid request envelope. -/
def JSONRPC_INVALID_REQUEST : Int := -32600

/-- JSON-RPC error code for an unknown method. -/
def JSONRPC_METHOD_NOT_FOUND : Int := -32601

/-- JSON-RPC error code for invalid parameters. -/
def JSONRPC_INVALID_PARAMS : Int := -32602

/-- JSON-RPC error code for an internal error. -/
def JSONRPC_INTERNAL_ERROR : Int := -32603

/-- Default page size for message listings. -/
def DEFAULT_MESSAGES_LIMIT : Int := 50

/-- Hard cap on the message listing page size. -/
def MAX_MESSAGES_LIMIT : Int := 200

/-- Default page size for user listings. -/
def DEFAULT_USERS_LIMIT : Int := 50

/-- Default page size for media listings. -/
def DEFAULT_MEDIA_LIMIT : Int := 50

/-- Default result count for full-text search. -/
def DEFAULT_SEARCH_LIMIT : Int := 50

/-- JSON-RPC error object; no call site populates the optional data
payload, so it is omitted from the model. -/
structure JSONRPCError where
  code : Int
  message : String
deriving DecidableEq, Repr

/-- A JSON-RPC response. The constant jsonrpc version field is implicit; the
id field is included only when the request supplied one, which the
create functions express with none. -/
structure RpcResponse where
  result : Option JVal := none
  error : Option JSONRPCError := none
  id : Option JVal := none

/-- create_error_response from server.py. -/
def create_error_response (e : JSONRPCError) (requestId : Option JVal) : RpcResponse :=
  ⟨none, some e, requestId⟩

/-- create_success_response from server.py. -/
def create_success_response (result : JVal) (requestId : Option JVal) : RpcResponse :=
  ⟨some result, none, requestId⟩

/-- Serialization of an optional text field, null when absent. -/
def optStr : Option String → JVal
  | some s => .str s
  | none => .null

/-- Serialization of an optional integer field, null when absent. -/
def optInt : Option Int → JVal
  | some n => .int n
  | none => .null

/-- serialize_message from server.py; the date is emitted as its stored
ISO-8601 text (datetime objects are never falsy, so the None branch of the
Python expression is dead). -/
def serialize_message (m : MsgRow) : JVal :=
  .obj [("id", .int m.id), ("chat_id", .int m.chat_id),
        ("sender_id", .int m.sender_id), ("date", .str m.date),
        ("text", optStr m.text), ("reply_to_msg_id", optInt m.reply_to_msg_id),
        ("is_forwarded", .bool m.is_forwarded), ("raw_json", optStr m.raw_json)]

/-- serialize_chat from server.py. -/
def serialize_chat (c : ChatRow) : JVal :=
  .obj [("id", .int c.id), ("title", .str c.title), ("username", optStr c.username)]

/-- serialize_user from server.py. -/
def serialize_user (u : UserRow) : JVal :=
  .obj [("id", .int u.id), ("username", optStr u.username),
        ("first_name", .str u.first_name), ("last_name", optStr u.last_name)]

/-- serialize_media from server.py. -/
def serialize_media (r : MediaRow) : JVal :=
  .obj [("msg_id", .int r.msg_id), ("chat_id", .int r.chat_id),
        ("media_type", .str r.media_type), ("media_id", .str r.media_id)]

/-- A params object, when one was supplied. -/
abbrev Params := List (String × JVal)

/-- params.get(key): an absent key and an explicit JSON null both give
Python None. -/
def pGet (p : Option Params) (k : String) : Option JVal :=
  match p with
  | none => none
  | some l =>
    match l.lookup k with
    | some .null => none
    | some v => some v
    | none => none

/-- params.get(key, default): the default applies only when the key is
absent; an explicit null is returned as is and then fails the type check
downstream, as Python None would. -/
def pGetD (p : Option Params) (k : String) (d : JVal) : JVal :=
  match p with
  | none => d
  | some l => (l.lookup k).getD d

/-- isinstance(x, int) on a JSON-derived value; Python bool is a subclass of
int. -/
def pyIsInt : JVal → Bool
  | .int _ => true
  | .bool _ => true
  | _ => false

/-- The integer value of a value that passed the isinstance int check. -/
def pyIntVal : JVal → Int
  | .int n => n
  | .bool b => if b then 1 else 0
  | _ => 0

/-- CPython text of the TypeError produced by a raise statement whose
argument is an instance of a class that does not derive from BaseException.
The JSONRPCError class of server.py is declared with no base class, so
every raise JSONRPCError in the handlers actually raises this TypeError and
no object carrying a JSON-RPC error code ever propagates. -/
def raiseNonExcMsg : String := "exceptions must derive from BaseException"

/-- CPython text of the TypeError produced when an except clause names a
class that does not derive from BaseException: except JSONRPCError in
handle_jsonrpc_request raises it while matching any exception, and this new
TypeError escapes the whole try statement, making both except bodies dead
code. -/
def catchNonExcMsg : String :=
  "catching classes that do not inherit from BaseException is not allowed"

/-- Result of one method handler: its dict, or the Python exception that
escapes it. A raise JSONRPCError site contributes the raiseNonExcMsg
TypeError, because JSONRPCError does not derive from BaseException. -/
abbrev HandlerResult := Except PyExc JVal

/-- handle_get_messages from server.py: extract the untyped parameters,
validate the limit (isinstance int, clamp to the maximum, then reject
non-positive values) and the cursor type before any repository access, then
run the filtered query followed by the matching count query. Each raise
JSONRPCError actually raises the TypeError about non-BaseException classes,
and an exception from the repository call propagates unchanged. -/
def handle_get_messages (db : DB) (params : Option Params) : HandlerResult := do
  let chat_id := pGet params "chat_id"
  let sender_id := pGet params "sender_id"
  let keyword := pGet params "keyword"
  let date_from := pGet params "date_from"
  let date_to := pGet params "date_to"
  let limit := pGetD params "limit" (.int DEFAULT_MESSAGES_LIMIT)
  let cursor := pGet params "cursor"
  if ¬pyIsInt limit then
    throw (.typeError raiseNonExcMsg)
  let limitC := min (pyIntVal limit) MAX_MESSAGES_LIMIT
  if limitC ≤ 0 then
    throw (.typeError raiseNonExcMsg)
  let cursorStr ←
    match cursor with
    | some (.str s) => pure (some s)
    | some _ => throw (.typeError raiseNonExcMsg)
    | none => pure (none : Option String)
  match get_messages_with_filters db
      ⟨chat_id, sender_id, keyword, date_from, date_to⟩ limitC.toNat cursorStr with
  | .error e => throw e
  | .ok page =>
    let total := count_messages db ⟨chat_id, sender_id, keyword, date_from, date_to⟩
    pure (.obj [("messages", .arr (page.messages.map serialize_message)),
                ("next_cursor", optStr page.next_cursor),
                ("has_more", .bool page.has_more),
                ("total_count", .int total)])

/-- handle_get_chats from server.py. -/
def handle_get_chats (db : DB) (_params : Option Params) : HandlerResult :=
  .ok (.obj [("chats", .arr ((get_all_chats db).map serialize_chat))])

/-- handle_get_users from server.py: validate the limit, then run the user
search; the cursor parameter is accepted but unused, and next_cursor is
always null. The raise JSONRPCError sites raise the non-BaseException
TypeError. -/
def handle_get_users (db : DB) (params : Option Params) : HandlerResult := do
  let keyword := pGet params "keyword"
  let limit := pGetD params "limit" (.int DEFAULT_USERS_LIMIT)
  if ¬pyIsInt limit then
    throw (.typeError raiseNonExcMsg)
  if pyIntVal limit ≤ 0 then
    throw (.typeError raiseNonExcMsg)
  let res := search_users db keyword (pyIntVal limit).toNat
  pure (.obj [("users", .arr (res.users.map serialize_user)),
              ("next_cursor", .null),
              ("has_more", .bool res.has_more)])

/-- Whitespace stripping as Python int() applies to a string argument; the
whitespace set is approximated by the JSON set. -/
def pyStrip (cs : List Char) : List Char :=
  ((cs.dropWhile isJsonWs).reverse.dropWhile isJsonWs).reverse

/-- Python int() applied to the raw cursor parameter. Strings parse as an
optionally signed decimal integer with surrounding whitespace stripped
(underscore digit grouping is unmodelled); ints and bools convert; list and
dict raise TypeError, which the ValueError handler around the call does not
catch; float truncation is outside the model and no claim exercises it. -/
def pyIntOf : JVal → Except PyExc Int
  | .int n => .ok n
  | .bool b => .ok (if b then 1 else 0)
  | .str s =>
    match parseIntText (pyStrip s.data) with
    | some n => .ok n
    | none => .error (.valueError ("invalid literal for int: " ++ s))
  | .null => .error (.typeError "int argument must not be None")
  | .float _ => .error (.typeError "float conversion outside model")
  | .arr _ => .error (.typeError "int argument must be a string or a number, not list")
  | .obj _ => .error (.typeError "int argument must be a string or a number, not dict")

/-- The serialization of the media next cursor in handle_get_media:
str(x) if x else None, so both an absent cursor and a cursor equal to 0 are
sent as null. -/
def serializeMediaCursor : Option Int → JVal
  | some n => if n ≠ 0 then .str (String.mk (intChars n)) else .null
  | none => .null

/-- handle_get_media from server.py: convert the cursor with int() first
(ValueError is caught, but the raise JSONRPCError in that except body raises
the non-BaseException TypeError; a TypeError from int() escapes unchanged),
then validate the limit, then run the media query. -/
def handle_get_media (db : DB) (params : Option Params) : HandlerResult := do
  let chat_id := pGet params "chat_id"
  let media_type := pGet params "media_type"
  let limit := pGetD params "limit" (.int DEFAULT_MEDIA_LIMIT)
  let cursor_str := pGet params "cursor"
  let cursor ←
    match cursor_str with
    | none => pure (none : Option Int)
    | some v =>
      match pyIntOf v with
      | .ok n => pure (some n)
      | .error (.valueError _) =>
        throw (.typeError raiseNonExcMsg)
      | .error e => throw e
  if ¬pyIsInt limit then
    throw (.typeError raiseNonExcMsg)
  if pyIntVal limit ≤ 0 then
    throw (.typeError raiseNonExcMsg)
  let res := get_media_with_filters db chat_id media_type (pyIntVal limit).toNat cursor
  pure (.obj [("media", .arr (res.media.map serialize_media)),
              ("next_cursor", serializeMediaCursor res.next_cursor),
              ("has_more", .bool res.has_more)])

/-- handle_search from server.py: a missing or empty params object, a falsy
query and a non-string query are rejected in that order, then the limit is
validated and the full-text query runs. Every raise JSONRPCError site raises
the non-BaseException TypeError. -/
def handle_search (db : DB) (params : Option Params) : HandlerResult := do
  match params with
  | none => throw (.typeError raiseNonExcMsg)
  | some pl =>
    if pl.isEmpty then
      throw (.typeError raiseNonExcMsg)
    let query := pGet (some pl) "query"
    match query with
    | none => throw (.typeError raiseNonExcMsg)
    | some qv =>
      if ¬jvalTruthy qv then
        throw (.typeError raiseNonExcMsg)
      match qv with
      | .str q =>
        let date_from := pGet (some pl) "date_from"
        let date_to := pGet (some pl) "date_to"
        let limit := pGetD (some pl) "limit" (.int DEFAULT_SEARCH_LIMIT)
        if ¬pyIsInt limit then
          throw (.typeError raiseNonExcMsg)
        if pyIntVal limit ≤ 0 then
          throw (.typeError raiseNonExcMsg)
        let res := search_messages_fulltext db q date_from date_to (pyIntVal limit).toNat
        pure (.obj [("results", .arr (res.messages.map serialize_message)),
                    ("has_more", .bool res.has_more)])
      | _ => throw (.typeError raiseNonExcMsg)

/-- The keys of METHOD_HANDLERS. -/
def methodNames : List String :=
  ["getMessages", "getChats", "getUsers", "getMedia", "search"]

/-- Dispatch to the handler registered for a recognized method name. -/
def callHandler (db : DB) (method : String) (params : Option Params) : HandlerResult :=
  if method = "getMessages" then handle_get_messages db params
  else if method = "getChats" then handle_get_chats db params
  else if method = "getUsers" then handle_get_users db params
  else if method = "getMedia" then handle_get_media db params
  else handle_search db params

/-- request.get(key) on the request object, with null collapsed to None as
json.loads produces. -/
def reqGet (request : Params) (k : String) : Option JVal :=
  match request.lookup k with
  | some .null => none
  | some v => some v
  | none => none

/-- str() of the method value as interpolated into the not-found message. -/
def methodStr : Option JVal → String
  | none => "None"
  | some v => pyStr v

/-- handle_jsonrpc_request from server.py: version check, method check,
params shape check — paths that construct JSONRPCError objects directly and
work — then the handler call inside the try block. Its first except clause
names JSONRPCError, a class not derived from BaseException, so as soon as
any exception reaches the try the clause matching raises the catchNonExcMsg
TypeError, which escapes the whole try statement: both except bodies are
dead code, and a handler failure makes the function raise instead of
returning a response. Probing a dict with an unhashable method value (a
list or dict) raises TypeError before the try block and escapes too; both
escapes are modelled as Except.error. -/
def handle_jsonrpc_request (db : DB) (request : Params) : Except PyExc RpcResponse := do
  let reqId := reqGet request "id"
  let versionOk :=
    match reqGet request "jsonrpc" with
    | some (.str s) => s == "2.0"
    | _ => false
  if !versionOk then
    return create_error_response ⟨JSONRPC_INVALID_REQUEST, "Invalid JSON-RPC version"⟩ reqId
  let methodV := reqGet request "method"
  let truthy :=
    match methodV with
    | some v => jvalTruthy v
    | none => false
  if !truthy then
    return create_error_response
      ⟨JSONRPC_METHOD_NOT_FOUND, "Method not found: " ++ methodStr methodV⟩ reqId
  match methodV with
  | some (.arr _) => throw (.typeError "unhashable type: list")
  | some (.obj _) => throw (.typeError "unhashable type: dict")
  | some (.str m) =>
    if m ∈ methodNames then
      let paramsOpt ←
        match reqGet request "params" with
        | none => pure (none : Option Params)
        | some (.obj l) => pure (some l)
        | some _ =>
          return create_error_response
            ⟨JSONRPC_INVALID_PARAMS, "Params must be an object or null"⟩ reqId
      match callHandler db m paramsOpt with
      | .ok result => pure (create_success_response result reqId)
      | .error _ => throw (.typeError catchNonExcMsg)
    else
      return create_error_response
        ⟨JSONRPC_METHOD_NOT_FOUND, "Method not found: " ++ methodStr methodV⟩ reqId
  | _ =>
    return create_error_response
      ⟨JSONRPC_METHOD_NOT_FOUND, "Method not found: " ++ methodStr methodV⟩ reqId

/-- Outcome of one incoming websocket text message carrying a batch: a
single response object or an ordered list of responses. -/
inductive WsOutcome where
  | single (r : RpcResponse)
  | batch (rs : List RpcResponse)

/-- The batch loop in handle_websocket_client: dispatch each object entry in
input order, skipping entries that are not objects; an exception escaping
any dispatch aborts the whole message with no reply sent. -/
def batchResponses (db : DB) : List JVal → Except PyExc (List RpcResponse)
  | [] => .ok []
  | r :: rs =>
    match r with
    | .obj kvs => do
      let resp ← handle_jsonrpc_request db kvs
      let rest ← batchResponses db rs
      pure (resp :: rest)
    | _ => batchResponses db rs

/-- Handling of a parsed batch (list) request in handle_websocket_client:
send the collected responses as a list, or a single invalid-request error
when no entry was an object. -/
def handleBatchMessage (db : DB) (reqs : List JVal) : Except PyExc WsOutcome := do
  let rs ← batchResponses db reqs
  if rs.isEmpty then
    pure (.single (create_error_response
      ⟨JSONRPC_INVALID_REQUEST, "Invalid batch request: all items must be objects"⟩ none))
  else
    pure (.batch rs)

/-- Message i of the concrete pagination check of the spec: id i in chat 1
with date 2024-01-01T00:00:0i. -/
def scenMsg (i : Int) : MsgRow :=
  ⟨i, 1, 1, "2024-01-01T00:00:0" ++ String.mk (intChars i), none, none, false, none⟩

/-- The store of the concrete pagination check: chat 1 titled Test and
messages 1 through 5 inserted through the repository write path. -/
def scenDB : DB :=
  applyMsgOps (insert_or_update_chat emptyDB ⟨1, "Test", none⟩)
    [.ins (scenMsg 1), .ins (scenMsg 2), .ins (scenMsg 3),
     .ins (scenMsg 4), .ins (scenMsg 5)]

/-- The filter set of the concrete pagination check: chat_id = 1. -/
def scenFilters : MsgFilters := { chat_id := some (.int 1) }

/-- The message of the full-text scenario: id 10 with text hello world. -/
def scenHello : MsgRow :=
  ⟨10, 1, 1, "2024-01-01T00:00:00", some "hello world", none, false, none⟩

/-- Characters of a JSON string that json.dumps emits verbatim: printable
ASCII other than the quote and the backslash. Every date string the system
stores (datetime.isoformat output) is made of such characters. -/
def plainJsonChar (c : Char) : Bool :=
  c ≠ '"' && c ≠ '\\' && 32 ≤ c.toNat && c.toNat ≤ 126

theorem char_ne_of_toNat {c d : Char} (h : c.toNat ≠ d.toNat) : c ≠ d :=
  fun he => h (he ▸ rfl)

theorem escapeJsonChar_plain {c : Char} (h : plainJsonChar c = true) :
    escapeJsonChar c = [c] := by
  simp only [plainJsonChar, Bool.and_eq_true, decide_eq_true_eq, ne_eq,
    Bool.not_eq_true, decide_eq_false_iff_not] at h
  obtain ⟨⟨⟨h1, h2⟩, h3⟩, h4⟩ := h
  have v1 : ('\n').toNat = 10 := rfl
  have v2 : ('\r').toNat = 13 := rfl
  have v3 : ('\t').toNat = 9 := rfl
  have e1 : c ≠ '\n' := char_ne_of_toNat (by omega)
  have e2 : c ≠ '\r' := char_ne_of_toNat (by omega)
  have e3 : c ≠ '\t' := char_ne_of_toNat (by omega)
  have e4 : c.toNat ≠ 8 := by omega
  have e5 : c.toNat ≠ 12 := by omega
  simp [escapeJsonChar, h1, h2, e1, e2, e3, e4, e5]
  omega

theorem foldr_escape_plain {cs : List Char} (h : ∀ c ∈ cs, plainJsonChar c = true) :
    cs.foldr (fun c acc => escapeJsonChar c ++ acc) ['"'] = cs ++ ['"'] := by
  induction cs with
  | nil => rfl
  | cons c cs ih =>
    rw [List.foldr_cons, ih (fun x hx => h x (List.mem_cons_of_mem _ hx)),
      escapeJsonChar_plain (h c (List.mem_cons_self _ _))]
    rfl

theorem jsonStrChars_plain {s : String} (h : ∀ c ∈ s.data, plainJsonChar c = true) :
    jsonStrChars s = '"' :: (s.data ++ ['"']) := by
  unfold jsonStrChars
  rw [foldr_escape_plain h]

theorem digitCh_toNat : ∀ d, d < 10 → (digitCh d).toNat = 48 + d := by decide

theorem digitCh_ne_zero : ∀ d, d < 10 → 0 < d → digitCh d ≠ '0' := by decide

theorem natCharsF_digit : ∀ fuel n, n < fuel →
    ∀ c ∈ natCharsF fuel n, 48 ≤ c.toNat ∧ c.toNat ≤ 57 := by
  intro fuel
  induction fuel with
  | zero => intro n hn; omega
  | succ fuel ih =>
    intro n _hn c hc
    rw [natCharsF] at hc
    by_cases h : n < 10
    · simp only [h, if_true, List.mem_singleton] at hc
      subst hc
      rw [digitCh_toNat n h]
      omega
    · simp only [h, if_false, List.mem_append, List.mem_singleton] at hc
      rcases hc with hc | hc
      · exact ih (n / 10) (by omega) c hc
      · subst hc
        rw [digitCh_toNat (n % 10) (Nat.mod_lt _ (by omega))]
        omega

theorem natChars_digit : ∀ n, ∀ c ∈ natChars n, 48 ≤ c.toNat ∧ c.toNat ≤ 57 :=
  fun n => natCharsF_digit (n + 1) n (by omega)

theorem natCharsF_ne_nil (fuel n : Nat) (h : n < fuel) : natCharsF fuel n ≠ [] := by
  match fuel with
  | 0 => omega
  | fuel + 1 =>
    rw [natCharsF]
    by_cases h10 : n < 10 <;> simp [h10]

theorem natChars_ne_nil (n : Nat) : natChars n ≠ [] :=
  natCharsF_ne_nil (n + 1) n (by omega)

theorem natChars_isDigitCh : ∀ n, ∀ c ∈ natChars n, isDigitCh c = true := by
  intro n c hc
  have := natChars_digit n c hc
  simp [isDigitCh]
  omega

theorem charsToNat_append (xs ys : List Char) :
    charsToNat (xs ++ ys) = ys.foldl (fun a c => a * 10 + (c.toNat - 48)) (charsToNat xs) := by
  simp [charsToNat, List.foldl_append]

theorem charsToNat_natCharsF : ∀ fuel n, n < fuel →
    charsToNat (natCharsF fuel n) = n := by
  intro fuel
  induction fuel with
  | zero => intro n hn; omega
  | succ fuel ih =>
    intro n _hn
    rw [natCharsF]
    by_cases h : n < 10
    · simp only [h, if_true]
      simp only [charsToNat, List.foldl_cons, List.foldl_nil]
      rw [digitCh_toNat n h]
      omega
    · simp only [h, if_false]
      rw [charsToNat_append, ih (n / 10) (by omega)]
      simp only [List.foldl_cons, List.foldl_nil]
      rw [digitCh_toNat (n % 10) (Nat.mod_lt _ (by omega))]
      omega

theorem charsToNat_natChars : ∀ n, charsToNat (natChars n) = n :=
  fun n => charsToNat_natCharsF (n + 1) n (by omega)

theorem natCharsF_head_ne_zero : ∀ fuel n, n < fuel → 0 < n →
    (natCharsF fuel n).head? ≠ some '0' := by
  intro fuel
  induction fuel with
  | zero => intro n hn; omega
  | succ fuel ih =>
    intro n _hn hpos
    rw [natCharsF]
    by_cases h : n < 10
    · simp only [h, if_true, List.head?_cons]
      intro hc
      exact digitCh_ne_zero n h hpos (by injection hc with hh)
    · simp only [h, if_false]
      rw [List.head?_append_of_ne_nil _ (natCharsF_ne_nil fuel (n / 10) (by omega))]
      exact ih (n / 10) (by omega) (by omega)

theorem natChars_head_ne_zero : ∀ n, 0 < n → (natChars n).head? ≠ some '0' :=
  fun n => natCharsF_head_ne_zero (n + 1) n (by omega)

theorem takeWhile_all_append {p : Char → Bool} {xs : List Char} {r : Char}
    (rest : List Char) (hxs : ∀ c ∈ xs, p c = true) (hr : p r = false) :
    (xs ++ r :: rest).takeWhile p = xs ∧ (xs ++ r :: rest).dropWhile p = r :: rest := by
  induction xs with
  | nil => simp [List.takeWhile, List.dropWhile, hr]
  | cons x xs ih =>
    have hx : p x = true := hxs x (List.mem_cons_self _ _)
    have := ih (fun c hc => hxs c (List.mem_cons_of_mem _ hc))
    simp [List.takeWhile, List.dropWhile, hx, this.1, this.2]

theorem parseNatNumber_natChars (n : Nat) (r : Char) (rest : List Char)
    (hr : isDigitCh r = false) (hdot : r ≠ '.') (he : r ≠ 'e') (hE : r ≠ 'E') :
    parseNatNumber (natChars n ++ r :: rest) = some (.int (n : Int), r :: rest) := by
  obtain ⟨htake, hdrop⟩ :=
    takeWhile_all_append (p := isDigitCh) rest (natChars_isDigitCh n) hr
  unfold parseNatNumber
  rw [htake, hdrop]
  have hne : ¬(natChars n).isEmpty := by
    simp [List.isEmpty_iff, natChars_ne_nil n]
  rw [if_neg hne]
  have hguard : ¬(1 < (natChars n).length && (natChars n).head? = some '0') = true := by
    simp only [Bool.and_eq_true, decide_eq_true_eq, not_and]
    intro hlen
    have hn0 : 0 < n := by
      by_contra hz
      have hz' : n = 0 := by omega
      subst hz'
      simp [natChars, natCharsF] at hlen
    simpa using natChars_head_ne_zero n hn0
  rw [if_neg hguard]
  simp [hdot, he, hE, charsToNat_natChars]

theorem natChars_head_not_dash (n : Nat) (c : Char) (hc : (natChars n).head? = some c) :
    c ≠ '-' := by
  intro he
  subst he
  rcases hl : natChars n with _ | ⟨d, ds⟩
  · exact natChars_ne_nil n hl
  · rw [hl] at hc
    simp only [List.head?_cons, Option.some.injEq] at hc
    have := natChars_digit n d (hl ▸ List.mem_cons_self _ _)
    rw [hc] at this
    have h45 : ('-').toNat = 45 := rfl
    omega

theorem parseNumber_intChars (i : Int) (r : Char) (rest : List Char)
    (hr : isDigitCh r = false) (hdot : r ≠ '.') (he : r ≠ 'e') (hE : r ≠ 'E') :
    parseNumber (intChars i ++ r :: rest) = some (.int i, r :: rest) := by
  unfold intChars
  by_cases hi : i < 0
  · simp only [hi, if_true, List.cons_append]
    simp only [parseNumber, if_pos rfl]
    rw [parseNatNumber_natChars i.natAbs r rest hr hdot he hE]
    have hneg : JVal.int (-(i.natAbs : Int)) = JVal.int i := by
      congr 1
      omega
    simp only [Option.map_some', negNum]
    rw [hneg]
    simp
  · simp only [hi, if_false]
    rcases hl : natChars i.toNat with _ | ⟨d, ds⟩
    · exact absurd hl (natChars_ne_nil _)
    · have hd : d ≠ '-' := natChars_head_not_dash i.toNat d (by rw [hl]; rfl)
      rw [List.cons_append]
      simp only [parseNumber, if_neg hd]
      rw [← List.cons_append, ← hl,
        parseNatNumber_natChars i.toNat r rest hr hdot he hE]
      simp only [Option.some.injEq, Prod.mk.injEq, JVal.int.injEq, and_true]
      omega

theorem parseStrBodyF_plain (xs : List Char) (rest : List Char)
    (h : ∀ c ∈ xs, plainJsonChar c = true) :
    ∀ f, xs.length < f → parseStrBodyF f (xs ++ '"' :: rest) = some (xs, rest) := by
  induction xs with
  | nil =>
    intro f hf
    match f with
    | f + 1 =>
      rw [List.nil_append, parseStrBodyF.eq_def]
      dsimp only
      rw [if_pos rfl]
  | cons x xs ih =>
    intro f hf
    match f with
    | f + 1 =>
      have hx := h x (List.mem_cons_self _ _)
      simp only [plainJsonChar, Bool.and_eq_true, decide_eq_true_eq, ne_eq,
        Bool.not_eq_true, decide_eq_false_iff_not] at hx
      obtain ⟨⟨⟨h1, h2⟩, h3⟩, h4⟩ := hx
      rw [List.cons_append, parseStrBodyF.eq_def]
      dsimp only
      rw [if_neg h1, if_neg h2, if_neg (by omega : ¬x.toNat < 32),
        ih (fun c hc => h c (List.mem_cons_of_mem _ hc)) f
          (by simp only [List.length_cons] at hf; omega)]
      rfl

theorem parseStrBody_plain (xs : List Char) (rest : List Char)
    (h : ∀ c ∈ xs, plainJsonChar c = true) :
    parseStrBody (xs ++ '"' :: rest) = some (xs, rest) := by
  unfold parseStrBody
  apply parseStrBodyF_plain xs rest h
  simp
  omega

theorem string_mk_data (s : String) : String.mk s.data = s := rfl

theorem skipWs_cons {c : Char} {cs : List Char} (h : isJsonWs c = false) :
    skipWs (c :: cs) = c :: cs := by
  simp [skipWs, h]

theorem skipWs_space (cs : List Char) : skipWs (' ' :: cs) = skipWs cs := by
  simp [skipWs, isJsonWs]

theorem isJsonWs_false_of_toNat {c : Char} (h : 33 ≤ c.toNat) : isJsonWs c = false := by
  have v1 : (' ').toNat = 32 := rfl
  have v2 : ('\t').toNat = 9 := rfl
  have v3 : ('\n').toNat = 10 := rfl
  have v4 : ('\r').toNat = 13 := rfl
  simp only [isJsonWs, Bool.or_eq_false_iff, decide_eq_false_iff_not]
  exact ⟨⟨⟨char_ne_of_toNat (by omega), char_ne_of_toNat (by omega)⟩,
    char_ne_of_toNat (by omega)⟩, char_ne_of_toNat (by omega)⟩

theorem intChars_head_cases (i : Int) :
    ∃ c cs, intChars i = c :: cs ∧ (45 = c.toNat ∨ (48 ≤ c.toNat ∧ c.toNat ≤ 57)) := by
  unfold intChars
  by_cases hi : i < 0
  · exact ⟨'-', natChars i.natAbs, by simp [hi], Or.inl rfl⟩
  · rcases hl : natChars i.toNat with _ | ⟨d, ds⟩
    · exact absurd hl (natChars_ne_nil _)
    · refine ⟨d, ds, by simp [hi], Or.inr ?_⟩
      exact natChars_digit i.toNat d (hl ▸ List.mem_cons_self _ _)

theorem char_eq_of_toNat {a b : Char} (h : a.toNat = b.toNat) : a = b := by
  apply Char.eq_of_val_eq
  apply UInt32.eq_of_toBitVec_eq
  apply BitVec.eq_of_toNat_eq
  exact h

theorem parseValue_string (f : Nat) (cs : List Char) :
    parseValue (f + 1) ('"' :: cs) =
      (parseStrBody cs).map (fun p => (.str (String.mk p.1), p.2)) := by
  rw [parseValue.eq_def]
  dsimp only
  rw [if_pos rfl]

theorem parseValue_objDispatch (f : Nat) (cs : List Char) :
    parseValue (f + 1) (lbrace :: cs) = parseObjBody f (skipWs cs) := by
  have h1 : lbrace ≠ '"' := by decide
  rw [parseValue.eq_def]
  dsimp only
  rw [if_neg h1, if_pos rfl]

theorem parseValue_number (f : Nat) (c0 : Char) (cs : List Char)
    (h : 45 = c0.toNat ∨ (48 ≤ c0.toNat ∧ c0.toNat ≤ 57)) :
    parseValue (f + 1) (c0 :: cs) = parseNumber (c0 :: cs) := by
  have v1 : ('"').toNat = 34 := rfl
  have v2 : lbrace.toNat = 123 := rfl
  have v3 : ('[').toNat = 91 := rfl
  have v4 : ('t').toNat = 116 := rfl
  have v5 : ('f').toNat = 102 := rfl
  have v6 : ('n').toNat = 110 := rfl
  have v7 : ('-').toNat = 45 := rfl
  have e1 : c0 ≠ '"' := char_ne_of_toNat (by omega)
  have e2 : c0 ≠ lbrace := char_ne_of_toNat (by omega)
  have e3 : c0 ≠ '[' := char_ne_of_toNat (by omega)
  have e4 : c0 ≠ 't' := char_ne_of_toNat (by omega)
  have e5 : c0 ≠ 'f' := char_ne_of_toNat (by omega)
  have e6 : c0 ≠ 'n' := char_ne_of_toNat (by omega)
  have hnum : (c0 = '-' || isDigitCh c0) = true := by
    rcases h with h | h
    · have : c0 = '-' := char_eq_of_toNat (by omega)
      simp [this]
    · simp [isDigitCh]
      omega
  rw [parseValue.eq_def]
  dsimp only
  rw [if_neg e1, if_neg e2, if_neg e3, if_neg e4, if_neg e5, if_neg e6]
  simp only [hnum, if_true]

theorem dumps_eq (i : Int) (d : String) (hd : ∀ c ∈ d.data, plainJsonChar c = true) :
    dumpsCursorChars i d = lbrace :: cursorBody i d := by
  unfold dumpsCursorChars cursorBody
  rw [jsonStrChars_plain hd]
  have h1 : jsonStrChars "last_id" = '"' :: ("last_id".data ++ ['"']) := rfl
  have h2 : jsonStrChars "last_date" = '"' :: ("last_date".data ++ ['"']) := rfl
  rw [h1, h2]
  simp [List.append_assoc]

theorem parseMembers_cursor (f : Nat) (i : Int) (d : String)
    (hd : ∀ c ∈ d.data, plainJsonChar c = true) :
    parseMembers (f + 3) (cursorBody i d) =
      some ([("last_id", .int i), ("last_date", .str d)], []) := by
  obtain ⟨c0, cs0, hic, hc0⟩ := intChars_head_cases i
  have hc0ws : isJsonWs c0 = false := isJsonWs_false_of_toNat (by omega)
  unfold cursorBody
  rw [show f + 3 = (f + 2) + 1 from rfl, parseMembers.eq_def]
  dsimp only
  rw [if_pos rfl, parseStrBody_plain ['l', 'a', 's', 't', '_', 'i', 'd'] _ (by decide)]
  dsimp only
  rw [skipWs_cons (by decide : isJsonWs ':' = false)]
  dsimp only
  rw [if_pos rfl, skipWs_space]
  rw [hic, List.cons_append, skipWs_cons hc0ws]
  rw [show f + 2 = (f + 1) + 1 from rfl, parseValue_number (f + 1) c0 _ hc0]
  rw [← List.cons_append, ← hic,
    parseNumber_intChars i ',' _ (by decide) (by decide) (by decide) (by decide)]
  dsimp only
  rw [skipWs_cons (by decide : isJsonWs ',' = false)]
  dsimp only
  rw [if_pos rfl, skipWs_space, skipWs_cons (by decide : isJsonWs '"' = false)]
  rw [parseMembers.eq_def]
  dsimp only
  rw [if_pos rfl,
    parseStrBody_plain ['l', 'a', 's', 't', '_', 'd', 'a', 't', 'e'] _ (by decide)]
  dsimp only
  rw [skipWs_cons (by decide : isJsonWs ':' = false)]
  dsimp only
  rw [if_pos rfl, skipWs_space, skipWs_cons (by decide : isJsonWs '"' = false)]
  rw [parseValue_string f, parseStrBody_plain d.data _ hd]
  dsimp only [Option.map]
  rw [skipWs_cons (by decide : isJsonWs rbrace = false)]
  dsimp only
  rw [if_neg (by decide : ¬rbrace = ','), if_pos rfl]

theorem parseValue_dumpsCursor (f : Nat) (i : Int) (d : String)
    (hd : ∀ c ∈ d.data, plainJsonChar c = true) :
    parseValue (f + 5) (lbrace :: cursorBody i d) = some (cursorJsonObj i d, []) := by
  rw [show f + 5 = (f + 4) + 1 from rfl, parseValue_objDispatch]
  rw [show skipWs (cursorBody i d) = cursorBody i d from
    skipWs_cons (by decide : isJsonWs '"' = false)]
  rw [show f + 4 = (f + 3) + 1 from rfl, parseObjBody.eq_def]
  dsimp only [cursorBody]
  rw [if_neg (by decide : ¬('"' : Char) = rbrace)]
  rw [show ('"' :: (['l', 'a', 's', 't', '_', 'i', 'd'] ++ '"' :: ':' :: ' ' ::
      (intChars i ++ ',' :: ' ' :: '"' :: (['l', 'a', 's', 't', '_', 'd', 'a', 't', 'e'] ++
        '"' :: ':' :: ' ' :: '"' :: (d.data ++ '"' :: [rbrace]))))) = cursorBody i d from rfl]
  rw [parseMembers_cursor f i d hd]
  rfl

theorem length_cursorBody_ge (i : Int) (d : String) : 4 ≤ (cursorBody i d).length := by
  simp [cursorBody]

theorem jsonLoads_dumpsCursor (i : Int) (d : String)
    (hd : ∀ c ∈ d.data, plainJsonChar c = true) :
    jsonLoads (String.mk (dumpsCursorChars i d)) = some (cursorJsonObj i d) := by
  unfold jsonLoads
  rw [show (String.mk (dumpsCursorChars i d)).data = dumpsCursorChars i d from rfl]
  rw [dumps_eq i d hd]
  rw [show skipWs (lbrace :: cursorBody i d) = lbrace :: cursorBody i d from
    skipWs_cons (by decide : isJsonWs lbrace = false)]
  have hlen : 4 ≤ (cursorBody i d).length := length_cursorBody_ge i d
  have hfe : (lbrace :: cursorBody i d).length + 1 =
      ((cursorBody i d).length - 3) + 5 := by
    simp only [List.length_cons]
    omega
  rw [hfe, parseValue_dumpsCursor ((cursorBody i d).length - 3) i d hd]
  rfl

theorem utf8Encode_ascii (cs : List Char) (h : ∀ c ∈ cs, c.toNat < 128) :
    utf8Encode cs = cs.map (fun c => c.toNat) := by
  induction cs with
  | nil => rfl
  | cons c cs ih =>
    have hc : c.toNat < 128 := h c (List.mem_cons_self _ _)
    simp only [utf8Encode, List.foldr_cons, List.map_cons]
    rw [show utf8EncodeChar c = [c.toNat] by simp [utf8EncodeChar, hc]]
    rw [show cs.foldr (fun c acc => utf8EncodeChar c ++ acc) [] = utf8Encode cs from rfl,
      ih (fun x hx => h x (List.mem_cons_of_mem _ hx))]
    rfl

theorem char_toNat_ofNat_valid {x : Nat} (h : x.isValidChar) :
    (Char.ofNat x).toNat = x := by
  simp only [Char.ofNat, h, dite_true]
  rfl

theorem char_ofNat_toNat (c : Char) : Char.ofNat c.toNat = c := by
  apply char_eq_of_toNat
  have hv : c.toNat.isValidChar := by
    rcases c with ⟨v, hv⟩
    rcases hv with h | h
    · exact Or.inl (by simpa [Char.toNat] using h)
    · exact Or.inr (by simpa [Char.toNat] using h)
  exact char_toNat_ofNat_valid hv

theorem utf8DecodeF_ascii (cs : List Char) (h : ∀ c ∈ cs, c.toNat < 128) :
    ∀ f, cs.length < f → utf8DecodeF f (cs.map (fun c => c.toNat)) = some cs := by
  induction cs with
  | nil =>
    intro f hf
    match f with
    | f + 1 => rfl
  | cons c cs ih =>
    intro f hf
    match f with
    | f + 1 =>
      have hc : c.toNat < 128 := h c (List.mem_cons_self _ _)
      rw [List.map_cons, utf8DecodeF.eq_def]
      dsimp only
      rw [if_pos hc, ih (fun x hx => h x (List.mem_cons_of_mem _ hx)) f
        (by simp only [List.length_cons] at hf; omega)]
      simp [char_ofNat_toNat]

theorem utf8Decode_ascii (cs : List Char) (h : ∀ c ∈ cs, c.toNat < 128) :
    utf8Decode (cs.map (fun c => c.toNat)) = some cs := by
  unfold utf8Decode
  apply utf8DecodeF_ascii cs h
  simp

theorem b64CharVal_sextetChar : ∀ v, v < 64 → b64CharVal (sextetChar v) = some v := by
  decide

theorem sextetChar_ne_pad : ∀ v, v < 64 → sextetChar v ≠ '=' := by
  decide

theorem b64_decode_encode_bounded : ∀ n (bs : List Nat), bs.length ≤ n →
    (∀ x ∈ bs, x < 256) → b64DecodeChars (b64EncodeBytes bs) = some bs := by
  intro n
  induction n with
  | zero =>
    intro bs hlen h
    match bs with
    | [] => rfl
    | _ :: _ => simp at hlen
  | succ n ih =>
    intro bs hlen h
    match bs with
    | [] => rfl
    | [a] =>
      have ha : a < 256 := h a (List.mem_cons_self _ _)
      have h1 : a / 4 < 64 := by omega
      have h2 : a % 4 * 16 < 64 := by omega
      rw [b64EncodeBytes, b64DecodeChars.eq_def]
      dsimp only
      rw [b64CharVal_sextetChar _ h1, b64CharVal_sextetChar _ h2]
      dsimp only
      rw [if_pos rfl, if_pos (by decide)]
      simp only [Option.some.injEq, List.cons.injEq, and_true]
      omega
    | [a, b] =>
      have ha : a < 256 := h a (by simp)
      have hb : b < 256 := h b (by simp)
      have h1 : a / 4 < 64 := by omega
      have h2 : a % 4 * 16 + b / 16 < 64 := by omega
      have h3 : b % 16 * 4 < 64 := by omega
      rw [b64EncodeBytes, b64DecodeChars.eq_def]
      dsimp only
      rw [b64CharVal_sextetChar _ h1, b64CharVal_sextetChar _ h2]
      dsimp only
      rw [if_neg (sextetChar_ne_pad _ h3), b64CharVal_sextetChar _ h3]
      dsimp only
      rw [if_pos rfl, if_pos (by decide)]
      simp only [Option.some.injEq, List.cons.injEq, and_true]
      exact ⟨by omega, by omega⟩
    | a :: b :: c :: rest =>
      have ha : a < 256 := h a (by simp)
      have hb : b < 256 := h b (by simp)
      have hc : c < 256 := h c (by simp)
      have h1 : a / 4 < 64 := by omega
      have h2 : a % 4 * 16 + b / 16 < 64 := by omega
      have h3 : b % 16 * 4 + c / 64 < 64 := by omega
      have h4 : c % 64 < 64 := by omega
      rw [b64EncodeBytes, b64DecodeChars.eq_def]
      dsimp only
      rw [b64CharVal_sextetChar _ h1, b64CharVal_sextetChar _ h2]
      dsimp only
      rw [if_neg (sextetChar_ne_pad _ h3), b64CharVal_sextetChar _ h3]
      dsimp only
      rw [if_neg (sextetChar_ne_pad _ h4), b64CharVal_sextetChar _ h4]
      dsimp only
      rw [ih rest (by simp at hlen; omega) (fun x hx => h x (by simp [hx]))]
      simp only [Option.map_some', Option.some.injEq, List.cons.injEq]
      refine ⟨by omega, by omega, by omega, trivial⟩

theorem b64_decode_encode (bs : List Nat) (h : ∀ x ∈ bs, x < 256) :
    b64DecodeChars (b64EncodeBytes bs) = some bs :=
  b64_decode_encode_bounded bs.length bs le_rfl h

theorem intChars_toNat_lt (i : Int) : ∀ c ∈ intChars i, c.toNat < 128 := by
  intro c hc
  unfold intChars at hc
  by_cases hi : i < 0
  · simp only [hi, if_true, List.mem_cons] at hc
    rcases hc with h | h
    · subst h
      decide
    · have := natChars_digit _ c h
      omega
  · simp only [hi, if_false] at hc
    have := natChars_digit _ c hc
    omega

theorem dumpsCursorChars_ascii (i : Int) (d : String)
    (hd : ∀ c ∈ d.data, plainJsonChar c = true) :
    ∀ c ∈ dumpsCursorChars i d, c.toNat < 128 := by
  have hdd : ∀ x ∈ d.data, x.toNat < 128 := fun x hx => by
    have := hd x hx
    simp only [plainJsonChar, Bool.and_eq_true, decide_eq_true_eq] at this
    omega
  rw [dumps_eq i d hd]
  unfold cursorBody
  refine List.forall_mem_cons.mpr ⟨by decide, ?_⟩
  refine List.forall_mem_cons.mpr ⟨by decide, ?_⟩
  refine List.forall_mem_append.mpr ⟨by decide, ?_⟩
  refine List.forall_mem_cons.mpr ⟨by decide, ?_⟩
  refine List.forall_mem_cons.mpr ⟨by decide, ?_⟩
  refine List.forall_mem_cons.mpr ⟨by decide, ?_⟩
  refine List.forall_mem_append.mpr ⟨intChars_toNat_lt i, ?_⟩
  refine List.forall_mem_cons.mpr ⟨by decide, ?_⟩
  refine List.forall_mem_cons.mpr ⟨by decide, ?_⟩
  refine List.forall_mem_cons.mpr ⟨by decide, ?_⟩
  refine List.forall_mem_append.mpr ⟨by decide, ?_⟩
  refine List.forall_mem_cons.mpr ⟨by decide, ?_⟩
  refine List.forall_mem_cons.mpr ⟨by decide, ?_⟩
  refine List.forall_mem_cons.mpr ⟨by decide, ?_⟩
  refine List.forall_mem_cons.mpr ⟨by decide, ?_⟩
  refine List.forall_mem_append.mpr ⟨hdd, ?_⟩
  refine List.forall_mem_cons.mpr ⟨by decide, ?_⟩
  intro c hc
  rw [List.mem_singleton] at hc
  subst hc
  decide

/-- C3 helper: full decode of an encoded cursor, for any integer id and any
date string made of plain printable ASCII characters, which covers every
ISO-8601 date string the system stores. -/
theorem decode_encode_cursor (i : Int) (d : String)
    (hd : ∀ c ∈ d.data, plainJsonChar c = true) :
    decode_cursor (encode_cursor ⟨i, d⟩) =
      .ok (some (JVal.int i, JVal.str d)) := by
  unfold encode_cursor decode_cursor
  have hascii := dumpsCursorChars_ascii i d hd
  rw [show (String.mk (b64EncodeBytes (utf8Encode (dumpsCursorChars i d)))).data =
    b64EncodeBytes (utf8Encode (dumpsCursorChars i d)) from rfl]
  rw [utf8Encode_ascii _ hascii]
  rw [b64_decode_encode _ (by
    intro x hx
    simp only [List.mem_map] at hx
    obtain ⟨c, hc, rfl⟩ := hx
    have := hascii c hc
    omega)]
  dsimp only
  rw [utf8Decode_ascii _ hascii]
  dsimp only
  rw [jsonLoads_dumpsCursor i d hd]
  rfl

/-- C3: for every valid (last_id, last_date) pair — any integer id together
with any date string of plain printable ASCII characters, which covers every
ISO-8601 date string the system stores — decoding the encoded cursor token
returns exactly that pair. -/
theorem claim_C3_cursor_roundtrip (i : Int) (d : String)
    (hd : ∀ c ∈ d.data, plainJsonChar c = true) :
    decode_cursor (encode_cursor ⟨i, d⟩) = .ok (some (JVal.int i, JVal.str d)) :=
  decode_encode_cursor i d hd

theorem claim_C3_cursor_roundtrip_witness :
    (∀ c ∈ ("2024-01-01T00:00:04" : String).data, plainJsonChar c = true) ∧
    decode_cursor (encode_cursor ⟨4, "2024-01-01T00:00:04"⟩) =
      .ok (some (JVal.int 4, JVal.str "2024-01-01T00:00:04")) :=
  ⟨by decide, claim_C3_cursor_roundtrip 4 "2024-01-01T00:00:04" (by decide)⟩

/-- C2: decode_cursor does not return an invalid result for every malformed
token. The token MTIz is valid base64 of the JSON text 123; the decoded
value is an int, and subscripting it raises TypeError, which the except
clause (ValueError, KeyError, JSONDecodeError) does not catch, so the
exception escapes to the caller instead of the documented None. A token
that is not base64 at all, in contrast, follows the documented lenient path
to the invalid result. -/
theorem claim_C2_decode_raises_on_nondict_token :
    decode_cursor "MTIz" =
      .error (.typeError "int object is not subscriptable") ∧
    decode_cursor "not base64!!!" = .ok none :=
  ⟨rfl, rfl⟩

/-- C4: the concrete pagination run of the spec. With chat 1 and messages
1 through 5 inserted, a page of 2 returns ids 5 and 4 with more pages and a
cursor decoding to (4, 2024-01-01T00:00:04); the second page returns ids 3
and 2 with more pages; the third returns id 1, no more pages, and no
cursor. -/
theorem claim_C4_concrete_pagination :
    (get_messages_with_filters scenDB scenFilters 2 none).map
        (fun p => (p.messages.map (fun m => m.id), p.has_more)) =
      .ok ([5, 4], true) ∧
    (get_messages_with_filters scenDB scenFilters 2 none).map
        (fun p => p.next_cursor.map decode_cursor) =
      .ok (some (.ok (some (.int 4, .str "2024-01-01T00:00:04")))) ∧
    ((get_messages_with_filters scenDB scenFilters 2 none).bind
        (fun p1 => get_messages_with_filters scenDB scenFilters 2 p1.next_cursor)).map
        (fun p => (p.messages.map (fun m => m.id), p.has_more)) =
      .ok ([3, 2], true) ∧
    (((get_messages_with_filters scenDB scenFilters 2 none).bind
        (fun p1 => get_messages_with_filters scenDB scenFilters 2 p1.next_cursor)).bind
        (fun p2 => get_messages_with_filters scenDB scenFilters 2 p2.next_cursor)).map
        (fun p => (p.messages.map (fun m => m.id), p.has_more, p.next_cursor)) =
      .ok ([1], false, none) :=
  ⟨rfl, rfl, rfl, rfl⟩

/-- C10: a getMedia cursor whose integer value is 0 is treated as if no
cursor were supplied — the msg_id predicate is Python-truthiness-guarded, so
the repository returns the first page again, at the db layer and through the
handler parsing the cursor string 0 — and a computed next cursor equal to 0
is serialized to the client as null rather than the string 0. -/
theorem claim_C10_media_cursor_zero (db : DB) (chat_id media_type : Option JVal)
    (limit : Nat) :
    get_media_with_filters db chat_id media_type limit (some 0) =
      get_media_with_filters db chat_id media_type limit none ∧
    handle_get_media db (some [("cursor", .str "0")]) = handle_get_media db none ∧
    serializeMediaCursor (some 0) = JVal.null :=
  ⟨rfl, rfl, rfl⟩

/-- C9: the documented limit validation is broken. A non-integer limit and
a non-positive integer limit make handle_get_messages execute raise
JSONRPCError, but JSONRPCError does not derive from BaseException, so the
raise itself raises TypeError and no invalid-parameters error object ever
exists — whatever the store contents, no repository call is made and the
caller receives the escaping TypeError instead of a -32602 response
(end to end, the dispatcher raises while matching its dead except clause
and sends nothing). The clamp of an integer limit above 200 to 200 and the
default 50 for an absent limit do behave as documented. -/
theorem claim_C9_limit_validation_raises (db : DB) :
    handle_get_messages db (some [("limit", .str "x")]) =
      .error (.typeError raiseNonExcMsg) ∧
    handle_get_messages db (some [("limit", .int 0)]) =
      .error (.typeError raiseNonExcMsg) ∧
    handle_get_messages db (some [("limit", .int 500)]) =
      handle_get_messages db (some [("limit", .int MAX_MESSAGES_LIMIT)]) ∧
    handle_get_messages db (some []) =
      handle_get_messages db (some [("limit", .int DEFAULT_MESSAGES_LIMIT)]) ∧
    handle_jsonrpc_request db
      [("jsonrpc", .str "2.0"), ("method", .str "getMessages"),
       ("params", .obj [("limit", .str "x")]), ("id", .int 1)] =
      .error (.typeError catchNonExcMsg) :=
  ⟨rfl, rfl, rfl, rfl, rfl⟩

/-- C6: get_messages_with_filters ANDs every supplied predicate: with
chat_id = X and sender_id = Y supplied, every returned message has exactly
that chat_id and sender_id, whatever the other filters, limit and cursor;
and when chat_id and sender_id are omitted the WHERE clause does not
restrict on those dimensions — the row predicate is unchanged under any
change of the chat_id and sender_id columns. -/
theorem claim_C6_filter_conjunction (db : DB) (f : MsgFilters) (limit : Nat)
    (cursor : Option String) (x y : Int) (page : MsgPage) :
    (f.chat_id = some (.int x) → f.sender_id = some (.int y) →
      get_messages_with_filters db f limit cursor = .ok page →
      ∀ m ∈ page.messages, m.chat_id = x ∧ m.sender_id = y) ∧
    (∀ (m : MsgRow) (c s : Int), f.chat_id = none → f.sender_id = none →
      msgConds f m = msgConds f { m with chat_id := c, sender_id := s }) := by
  constructor
  · intro hx hy hok m hm
    rw [get_messages_with_filters] at hok
    cases hco : cursorDecodeStep cursor with
    | error e => rw [hco] at hok; exact absurd hok (by simp [Bind.bind, Except.bind])
    | ok co =>
      rw [hco] at hok
      simp only [Bind.bind, Except.bind, pure, Except.pure, Except.ok.injEq] at hok
      subst hok
      have hm2 : m ∈ sortMsgsDesc
          (db.msgs.filter (fun r => msgConds f r && afterCursor co r)) := by
        simp only at hm
        rcases ite_eq_or_eq (decide (limit <
            ((sortMsgsDesc (db.msgs.filter
              (fun r => msgConds f r && afterCursor co r))).take (limit + 1)).length) = true)
            _ _ with h | h
        all_goals
          rw [h] at hm
        · exact List.take_subset _ _ (List.take_subset _ _ hm)
        · exact List.take_subset _ _ hm
      have hm3 : m ∈ db.msgs.filter (fun r => msgConds f r && afterCursor co r) :=
        (List.perm_insertionSort msgGe _).subset hm2
      have hpred := (List.mem_filter.mp hm3).2
      rw [Bool.and_eq_true] at hpred
      have hconds := hpred.1
      rw [msgConds, hx, hy] at hconds
      simp only [Bool.and_eq_true, eqIntCol, beq_iff_eq] at hconds
      exact ⟨hconds.1.1.1.1, hconds.1.1.1.2⟩
  · intro m c s hc hs
    simp [msgConds, hc, hs]

theorem claim_C6_filter_conjunction_witness :
    (∀ m ∈ (MsgPage.mk [scenMsg 5, scenMsg 4, scenMsg 3, scenMsg 2, scenMsg 1]
        false none).messages, m.chat_id = 1 ∧ m.sender_id = 1) ∧
    msgConds ⟨none, none, none, none, none⟩ (scenMsg 1) =
      msgConds ⟨none, none, none, none, none⟩
        { scenMsg 1 with chat_id := 7, sender_id := 8 } :=
  ⟨(claim_C6_filter_conjunction scenDB
      ⟨some (.int 1), some (.int 1), none, none, none⟩ 8 none 1 1
      ⟨[scenMsg 5, scenMsg 4, scenMsg 3, scenMsg 2, scenMsg 1], false, none⟩).1
      rfl rfl rfl,
   (claim_C6_filter_conjunction scenDB ⟨none, none, none, none, none⟩ 8 none 1 1
      ⟨[], false, none⟩).2 (scenMsg 1) 7 8 rfl rfl⟩

/-- C7: the documented conversion of handler failures into a generic
internal-error response does not exist. When a handler fails — with an
internal exception such as the TypeError escaping decode_cursor on the
cursor token MTIz, or with the TypeError that raise JSONRPCError itself
produces, as for a zero getUsers limit — the exception reaches the try
whose first except clause names JSONRPCError, a class not derived from
BaseException; matching raises a fresh TypeError that escapes the
dispatcher, so the caller is sent no response at all and the -32603 branch
is dead code. Both failure kinds end in the same escaping TypeError,
whatever the store contents. -/
theorem claim_C7_handler_failure_no_response (db : DB) :
    handle_jsonrpc_request db
      [("jsonrpc", .str "2.0"), ("method", .str "getMessages"),
       ("params", .obj [("cursor", .str "MTIz")]), ("id", .int 1)] =
      .error (.typeError catchNonExcMsg) ∧
    handle_jsonrpc_request db
      [("jsonrpc", .str "2.0"), ("method", .str "getUsers"),
       ("params", .obj [("limit", .int 0)]), ("id", .int 2)] =
      .error (.typeError catchNonExcMsg) :=
  ⟨rfl, rfl⟩

theorem batchResponses_ok_filterMap (db : DB) :
    ∀ (reqs : List JVal) (rs : List RpcResponse),
      batchResponses db reqs = .ok rs →
      rs = reqs.filterMap (fun r =>
        match r with
        | .obj kvs => (handle_jsonrpc_request db kvs).toOption
        | _ => none) := by
  intro reqs
  induction reqs with
  | nil =>
    intro rs h
    rw [batchResponses] at h
    cases h
    rfl
  | cons r rest ih =>
    intro rs h
    cases r with
    | obj kvs =>
      rw [batchResponses] at h
      cases h1 : handle_jsonrpc_request db kvs with
      | error e =>
        rw [h1] at h
        exact absurd h (by simp [Bind.bind, Except.bind])
      | ok resp =>
        rw [h1] at h
        cases h2 : batchResponses db rest with
        | error e =>
          rw [h2] at h
          exact absurd h (by simp [Bind.bind, Except.bind])
        | ok rest2 =>
          rw [h2] at h
          simp only [Bind.bind, Except.bind, pure, Except.pure, Except.ok.injEq] at h
          subst h
          simp only [List.filterMap_cons, h1, Except.toOption, ih rest2 h2]
    | null => exact ih rs h
    | bool b => exact ih rs h
    | int n => exact ih rs h
    | float x => exact ih rs h
    | str s => exact ih rs h
    | arr l => exact ih rs h

/-- C8 counterexample: a batch response is not a list of the same length as
the input batch. The two-entry batch holding one object and the non-object 5
yields a single response: the non-object entry is dropped from the output,
so the response list has length 1 while the batch has length 2. -/
theorem claim_C8_counterexample :
    batchResponses emptyDB [JVal.obj [], JVal.int 5] =
      .ok [create_error_response
        ⟨JSONRPC_INVALID_REQUEST, "Invalid JSON-RPC version"⟩ none] ∧
    [JVal.obj [], JVal.int 5].length = 2 :=
  ⟨rfl, rfl⟩

/-- C8 as amended: when the batch loop completes, the response list
preserves input order but its length is the number of object entries, not
the batch length: the responses are exactly the in-order dispatch results
of the object entries, non-object entries are dropped, and a batch that
produced no responses (empty or all-invalid) is answered with the single
invalid-request error. The loop does not always complete: any entry whose
handler fails makes the dispatch raise the TypeError of its dead except
clause, which aborts the whole batch with no reply at all, as the final
conjunct shows for a batch starting with a bad-limit getMessages entry. -/
theorem claim_C8_batch_order_and_drops (db : DB) (reqs reqs2 : List JVal)
    (rs : List RpcResponse) (h : batchResponses db reqs = .ok rs) :
    rs = reqs.filterMap (fun r =>
      match r with
      | .obj kvs => (handle_jsonrpc_request db kvs).toOption
      | _ => none) ∧
    (rs.isEmpty = true →
      handleBatchMessage db reqs = .ok (.single (create_error_response
        ⟨JSONRPC_INVALID_REQUEST, "Invalid batch request: all items must be objects"⟩
        none))) ∧
    (rs.isEmpty = false → handleBatchMessage db reqs = .ok (.batch rs)) ∧
    batchResponses db
      (.obj [("jsonrpc", .str "2.0"), ("method", .str "getMessages"),
             ("params", .obj [("limit", .str "x")]), ("id", .int 3)] :: reqs2) =
      .error (.typeError catchNonExcMsg) := by
  refine ⟨batchResponses_ok_filterMap db reqs rs h, ?_, ?_, rfl⟩
  · intro he
    rw [handleBatchMessage, h]
    simp [Bind.bind, Except.bind, pure, Except.pure, he]
  · intro he
    rw [handleBatchMessage, h]
    simp [Bind.bind, Except.bind, pure, Except.pure, he]

theorem claim_C8_batch_order_and_drops_witness :
    ([create_error_response ⟨JSONRPC_INVALID_REQUEST, "Invalid JSON-RPC version"⟩ none] =
      [JVal.obj [], JVal.int 5].filterMap (fun r =>
        match r with
        | .obj kvs => (handle_jsonrpc_request emptyDB kvs).toOption
        | _ => none)) ∧
    handleBatchMessage emptyDB [JVal.obj [], JVal.int 5] =
      .ok (.batch [create_error_response
        ⟨JSONRPC_INVALID_REQUEST, "Invalid JSON-RPC version"⟩ none]) ∧
    batchResponses emptyDB
      [.obj [("jsonrpc", .str "2.0"), ("method", .str "getMessages"),
             ("params", .obj [("limit", .str "x")]), ("id", .int 3)]] =
      .error (.typeError catchNonExcMsg) :=
  ⟨(claim_C8_batch_order_and_drops emptyDB [JVal.obj [], JVal.int 5] []
      [create_error_response ⟨JSONRPC_INVALID_REQUEST, "Invalid JSON-RPC version"⟩ none]
      rfl).1,
   (claim_C8_batch_order_and_drops emptyDB [JVal.obj [], JVal.int 5] []
      [create_error_response ⟨JSONRPC_INVALID_REQUEST, "Invalid JSON-RPC version"⟩ none]
      rfl).2.2.1 rfl,
   (claim_C8_batch_order_and_drops emptyDB [JVal.obj [], JVal.int 5] []
      [create_error_response ⟨JSONRPC_INVALID_REQUEST, "Invalid JSON-RPC version"⟩ none]
      rfl).2.2.2⟩

theorem nodup_ids_filter {l : List MsgRow} (p : MsgRow → Bool)
    (h : (l.map (fun m => m.id)).Nodup) :
    ((l.filter p).map (fun m => m.id)).Nodup :=
  List.Nodup.sublist (List.Sublist.map _ (List.filter_sublist l)) h

theorem not_beq_decide (x y : Int) : (decide (¬(x == y) = true)) = !(x == y) := by
  cases h : x == y <;> simp [h]

theorem filter_singleton_of_nodup :
    ∀ (l : List MsgRow) (mid : Int), (l.map (fun m => m.id)).Nodup →
      l.any (fun r => r.id == mid) = true →
      ∃ r0, l.filter (fun r => r.id == mid) = [r0] ∧ r0.id = mid := by
  intro l
  induction l with
  | nil => intro mid h ha; simp at ha
  | cons r rest ih =>
    intro mid h ha
    rw [List.map_cons, List.nodup_cons] at h
    cases hr : r.id == mid with
    | true =>
      refine ⟨r, ?_, eq_of_beq hr⟩
      have hnil : rest.filter (fun x => x.id == mid) = [] := by
        rw [List.filter_eq_nil_iff]
        intro x hx
        have hne : x.id ≠ r.id := fun he => h.1 (he ▸ List.mem_map_of_mem _ hx)
        rw [eq_of_beq hr] at hne
        simp [hne]
      rw [List.filter_cons, if_pos hr, hnil]
    | false =>
      rw [List.any_cons, hr, Bool.false_or] at ha
      obtain ⟨r0, hf, hid⟩ := ih mid h.2 ha
      refine ⟨r0, ?_, hid⟩
      rw [List.filter_cons, if_neg (by simp [hr]), hf]

theorem fts_mirror_step (db : DB) (op : MsgOp)
    (h1 : (db.msgs.map (fun m => m.id)).Nodup)
    (h2 : db.fts.Perm (db.msgs.map (fun m => (m.id, m.text)))) :
    ((applyMsgOp db op).msgs.map (fun m => m.id)).Nodup ∧
    (applyMsgOp db op).fts.Perm
      ((applyMsgOp db op).msgs.map (fun m => (m.id, m.text))) := by
  cases op with
  | ins m =>
    rw [applyMsgOp, insert_message]
    cases hdup : db.msgs.any (fun r => r.id == m.id) with
    | true => exact ⟨h1, h2⟩
    | false =>
      have hnm : m.id ∉ db.msgs.map (fun r => r.id) := by
        intro hmm
        obtain ⟨r, hr, hid⟩ := List.mem_map.mp hmm
        have := (List.any_eq_false.mp hdup) r hr
        simp [hid] at this
      constructor
      · show ((db.msgs ++ [m]).map (fun r => r.id)).Nodup
        rw [List.map_append, List.nodup_append]
        exact ⟨h1, List.nodup_singleton _, by
          intro a ha hb
          simp only [List.map_cons, List.map_nil, List.mem_singleton] at hb
          exact hnm (hb ▸ ha)⟩
      · show (db.fts ++ [(m.id, m.text)]).Perm
          ((db.msgs ++ [m]).map (fun r => (r.id, r.text)))
        rw [List.map_append]
        exact h2.append_right _
  | del mid =>
    rw [applyMsgOp, deleteMessageSql]
    refine ⟨nodup_ids_filter _ h1, ?_⟩
    have hp := h2.filter (fun e => ¬e.1 == mid)
    rw [List.filter_map] at hp
    exact hp
  | upd mid t =>
    rw [applyMsgOp, updateMessageTextSql]
    cases hex : db.msgs.any (fun r => r.id == mid) with
    | false => exact ⟨h1, h2⟩
    | true =>
      simp only [if_true]
      have hid_map : (db.msgs.map
          (fun r => if r.id == mid then { r with text := t } else r)).map
            (fun m => m.id) = db.msgs.map (fun m => m.id) := by
        rw [List.map_map]
        apply List.map_congr_left
        intro r _
        by_cases h : r.id = mid <;> simp [h]
      constructor
      · rw [hid_map]; exact h1
      · obtain ⟨r0, hfil, hr0⟩ := filter_singleton_of_nodup db.msgs mid h1 hex
        have step1 : (db.fts.filter (fun e => ¬e.1 == mid)).Perm
            ((db.msgs.filter (fun r => ¬r.id == mid)).map
              (fun m => (m.id, m.text))) := by
          have hp := h2.filter (fun e => ¬e.1 == mid)
          rw [List.filter_map] at hp
          exact hp
        have step2 : (db.msgs.filter (fun r => ¬r.id == mid)).map
              (fun m => (m.id, m.text)) =
            (db.msgs.filter (fun r => ¬r.id == mid)).map
              ((fun m => (m.id, m.text)) ∘
                (fun r => if r.id == mid then { r with text := t } else r)) := by
          apply List.map_congr_left
          intro r hr
          have hmem := (List.mem_filter.mp hr).2
          have hne : (r.id == mid) = false := by simpa using hmem
          simp [Function.comp, hne]
        have step3 : (db.msgs.filter (fun r => r.id == mid)).map
              ((fun m => (m.id, m.text)) ∘
                (fun r => if r.id == mid then { r with text := t } else r)) =
            [(mid, t)] := by
          rw [hfil]
          have hb : (r0.id == mid) = true := beq_iff_eq.mpr hr0
          simp [Function.comp, hb, hr0]
        have hsplit : ((db.msgs.filter (fun r => ¬r.id == mid)) ++
              (db.msgs.filter (fun r => r.id == mid))).Perm db.msgs := by
          have := List.filter_append_perm (fun r => !(r.id == mid)) db.msgs
          have hq : db.msgs.filter (fun r => ¬r.id == mid) =
              db.msgs.filter (fun r => !(r.id == mid)) :=
            List.filter_congr (fun r _ => not_beq_decide r.id mid)
          have hq2 : db.msgs.filter (fun r => r.id == mid) =
              db.msgs.filter (fun x => !!(x.id == mid)) := by
            apply List.filter_congr
            intro r _
            simp
          rw [hq, hq2]
          exact this
        have h4 : (db.fts.filter (fun e => ¬e.1 == mid) ++ [(mid, t)]).Perm
            ((db.msgs.filter (fun r => ¬r.id == mid)).map
              ((fun m => (m.id, m.text)) ∘
                (fun r => if r.id == mid then { r with text := t } else r)) ++
             (db.msgs.filter (fun r => r.id == mid)).map
              ((fun m => (m.id, m.text)) ∘
                (fun r => if r.id == mid then { r with text := t } else r))) := by
          rw [step3, ← step2]
          exact step1.append_right _
        have h5 : ((db.msgs.filter (fun r => ¬r.id == mid)).map
              ((fun m => (m.id, m.text)) ∘
                (fun r => if r.id == mid then { r with text := t } else r)) ++
             (db.msgs.filter (fun r => r.id == mid)).map
              ((fun m => (m.id, m.text)) ∘
                (fun r => if r.id == mid then { r with text := t } else r))).Perm
            ((db.msgs.map
              (fun r => if r.id == mid then { r with text := t } else r)).map
              (fun m => (m.id, m.text))) := by
          rw [← List.map_append, List.map_map]
          exact hsplit.map _
        exact h4.trans h5

theorem fts_mirror_ops : ∀ (ops : List MsgOp) (db : DB),
    (db.msgs.map (fun m => m.id)).Nodup →
    db.fts.Perm (db.msgs.map (fun m => (m.id, m.text))) →
    ((applyMsgOps db ops).msgs.map (fun m => m.id)).Nodup ∧
    (applyMsgOps db ops).fts.Perm
      ((applyMsgOps db ops).msgs.map (fun m => (m.id, m.text))) := by
  intro ops
  induction ops with
  | nil => intro db h1 h2; exact ⟨h1, h2⟩
  | cons op rest ih =>
    intro db h1 h2
    have step := fts_mirror_step db op h1 h2
    exact ih (applyMsgOp db op) step.1 step.2

/-- C5: the full-text index mirrors the messages table as a state-machine
invariant: after any sequence of insert, delete and update operations from
the empty store, message ids are unique and the index rows are exactly one
(id, text) document per message row; concretely, after inserting the
hello world message a search for hello returns it, and after deleting it or
updating its text to no longer contain the word the same search returns
nothing. -/
theorem claim_C5_fts_mirrors_messages (ops : List MsgOp) :
    (((applyMsgOps emptyDB ops).msgs.map (fun m => m.id)).Nodup ∧
      (applyMsgOps emptyDB ops).fts.Perm
        ((applyMsgOps emptyDB ops).msgs.map (fun m => (m.id, m.text)))) ∧
    (search_messages_fulltext (applyMsgOp scenDB (.ins scenHello))
      "hello" none none 50).messages = [scenHello] ∧
    (search_messages_fulltext
      (applyMsgOp (applyMsgOp scenDB (.ins scenHello)) (.del 10))
      "hello" none none 50).messages = [] ∧
    (search_messages_fulltext
      (applyMsgOp (applyMsgOp scenDB (.ins scenHello))
        (.upd 10 (some "goodbye planet")))
      "hello" none none 50).messages = [] :=
  ⟨fts_mirror_ops ops emptyDB (by simp [emptyDB]) (by simp [emptyDB]),
   rfl, rfl, rfl⟩

theorem b64EncodeBytes_ne_nil (a : Nat) (bs : List Nat) :
    b64EncodeBytes (a :: bs) ≠ [] := by
  match bs with
  | [] => simp [b64EncodeBytes]
  | [b] => simp [b64EncodeBytes]
  | b :: c :: rest => simp [b64EncodeBytes]

theorem encode_cursor_ne_empty (i : Int) (d : String) : encode_cursor ⟨i, d⟩ ≠ "" := by
  intro h
  have hdata : b64EncodeBytes (utf8Encode (dumpsCursorChars i d)) = [] :=
    congrArg String.data h
  obtain ⟨r, hr⟩ : ∃ r, utf8Encode (dumpsCursorChars i d) = 123 :: r := ⟨_, rfl⟩
  rw [hr] at hdata
  exact b64EncodeBytes_ne_nil _ _ hdata

theorem pairwise_gt_of_sorted_nodup {l : List MsgRow}
    (hs : List.Pairwise msgGe l) (hn : (l.map (fun m => m.id)).Nodup) :
    l.Pairwise msgGt := by
  have hne : l.Pairwise (fun a b => a.id ≠ b.id) := List.pairwise_map.mp hn
  refine (hs.and hne).imp ?_
  rintro a b ⟨hge, hid⟩
  refine lt_of_le_of_ne hge ?_
  intro he
  rw [msgKey, msgKey, toLex_inj] at he
  exact hid (congrArg Prod.snd he).symm

theorem sortMsgsDesc_pairwise_gt {l : List MsgRow}
    (hn : (l.map (fun m => m.id)).Nodup) : (sortMsgsDesc l).Pairwise msgGt := by
  apply pairwise_gt_of_sorted_nodup (List.sorted_insertionSort msgGe l)
  exact (((List.perm_insertionSort msgGe l).map (fun m => m.id)).nodup_iff).mpr hn

theorem sortMsgsDesc_filter_comm (l : List MsgRow) (p : MsgRow → Bool)
    (hn : (l.map (fun m => m.id)).Nodup) :
    sortMsgsDesc (l.filter p) = (sortMsgsDesc l).filter p := by
  refine List.eq_of_perm_of_sorted (r := msgGt)
    ((List.perm_insertionSort msgGe (l.filter p)).trans
      (((List.perm_insertionSort msgGe l).filter p).symm)) ?_ ?_
  · exact sortMsgsDesc_pairwise_gt (nodup_ids_filter p hn)
  · exact (sortMsgsDesc_pairwise_gt hn).filter p

theorem cursorCond_eq_keyLt (i : Int) (d : String) (r : MsgRow) :
    cursorCond (.int i, .str d) r = decide (msgKey r < toLex (d, i)) := by
  rw [Bool.eq_iff_iff]
  simp only [cursorCond, ltTextCol, eqTextCol, ltIntCol, textAffinity, msgKey,
    Bool.or_eq_true, Bool.and_eq_true, decide_eq_true_eq, beq_iff_eq,
    Prod.Lex.lt_iff]
  constructor
  · rintro (h | ⟨h1, h2⟩)
    · exact Or.inl (String.lt_iff_toList_lt.mpr h)
    · exact Or.inr ⟨h1, h2⟩
  · rintro (h | ⟨h1, h2⟩)
    · exact Or.inl (String.lt_iff_toList_lt.mp h)
    · exact Or.inr ⟨h1, h2⟩

theorem strict_filter_drop :
    ∀ (S : List MsgRow), S.Pairwise msgGt →
      ∀ (k : Nat) (hk : k < S.length),
        S.filter (fun r => decide (msgKey r < msgKey (S.get ⟨k, hk⟩))) =
          S.drop (k + 1) := by
  intro S
  induction S with
  | nil => intro _ k hk; simp at hk
  | cons a S ih =>
    intro hp k hk
    rcases List.pairwise_cons.mp hp with ⟨ha, hS⟩
    cases k with
    | zero =>
      rw [show (a :: S).get ⟨0, hk⟩ = a from rfl]
      rw [List.filter_cons, if_neg (by simp)]
      rw [List.filter_eq_self.mpr
        (fun r hr => decide_eq_true (show msgKey r < msgKey a from ha r hr))]
      rfl
    | succ k =>
      have hk2 : k < S.length := by simpa using hk
      have hmem : S.get ⟨k, hk2⟩ ∈ S := S.get_mem k hk2
      have hlt : msgKey (S.get ⟨k, hk2⟩) < msgKey a := ha _ hmem
      rw [show (a :: S).get ⟨k + 1, hk⟩ = S.get ⟨k, hk2⟩ from rfl]
      rw [List.filter_cons, if_neg (by
        simp only [decide_eq_true_eq]
        exact asymm hlt)]
      rw [ih hS k hk2]
      rfl

theorem get_messages_eq (db : DB) (f : MsgFilters) (limit : Nat)
    (cursor : Option String) (co : Option (JVal × JVal)) (T : List MsgRow)
    (hdec : cursorDecodeStep cursor = .ok co)
    (hT : sortMsgsDesc (db.msgs.filter (fun m => msgConds f m && afterCursor co m)) = T) :
    get_messages_with_filters db f limit cursor =
      .ok ⟨if decide (limit < (T.take (limit + 1)).length) = true
             then (T.take (limit + 1)).take limit else T.take (limit + 1),
           decide (limit < (T.take (limit + 1)).length),
           if decide (limit < (T.take (limit + 1)).length) = true then
             match (if decide (limit < (T.take (limit + 1)).length) = true
                 then (T.take (limit + 1)).take limit
                 else T.take (limit + 1)).getLast? with
             | some lastMsg => some (encode_cursor ⟨lastMsg.id, lastMsg.date⟩)
             | none => none
           else none⟩ := by
  subst hT
  rw [get_messages_with_filters, hdec]
  rfl

theorem paginate_loop (db : DB) (f : MsgFilters) (limit : Nat) (hlim : 1 ≤ limit)
    (hids : (db.msgs.map (fun m => m.id)).Nodup)
    (hdates : ∀ r ∈ db.msgs, ∀ c ∈ r.date.data, plainJsonChar c = true) :
    ∀ (fuel k : Nat) (cursor : Option String) (co : Option (JVal × JVal)),
      cursorDecodeStep cursor = .ok co →
      sortMsgsDesc (db.msgs.filter (fun m => msgConds f m && afterCursor co m)) =
        (sortMsgsDesc (db.msgs.filter (msgConds f))).drop k →
      (sortMsgsDesc (db.msgs.filter (msgConds f))).length - k < fuel →
      paginateMessagesF fuel db f limit cursor =
        .ok ((sortMsgsDesc (db.msgs.filter (msgConds f))).drop k) := by
  have hSnodup : ((sortMsgsDesc (db.msgs.filter (msgConds f))).map
      (fun m => m.id)).Nodup :=
    (((List.perm_insertionSort msgGe _).map (fun m => m.id)).nodup_iff).mpr
      (nodup_ids_filter _ hids)
  have hSgt : (sortMsgsDesc (db.msgs.filter (msgConds f))).Pairwise msgGt :=
    sortMsgsDesc_pairwise_gt (nodup_ids_filter _ hids)
  have hSsub : ∀ m ∈ sortMsgsDesc (db.msgs.filter (msgConds f)), m ∈ db.msgs :=
    fun m hm => List.mem_of_mem_filter ((List.perm_insertionSort msgGe _).subset hm)
  intro fuel
  induction fuel with
  | zero => intro k cursor co _ _ hlen; omega
  | succ fuel ih =>
    intro k cursor co hdec hrem hlen
    by_cases hB : (sortMsgsDesc (db.msgs.filter (msgConds f))).length - k ≤ limit
    · -- last page: at most limit rows remain
      have htake : ((sortMsgsDesc (db.msgs.filter (msgConds f))).drop k).take
          (limit + 1) = (sortMsgsDesc (db.msgs.filter (msgConds f))).drop k :=
        List.take_of_length_le (by rw [List.length_drop]; omega)
      have hpage := get_messages_eq db f limit cursor co _ hdec hrem
      rw [htake] at hpage
      have hmore : decide (limit <
          ((sortMsgsDesc (db.msgs.filter (msgConds f))).drop k).length) = false :=
        decide_eq_false (by rw [List.length_drop]; omega)
      rw [hmore] at hpage
      simp only [Bool.false_eq_true, if_false] at hpage
      rw [paginateMessagesF, hpage]
      rfl
    · -- a full page with lookahead: more rows remain
      push_neg at hB
      have hj : k + limit - 1 < (sortMsgsDesc (db.msgs.filter (msgConds f))).length := by
        omega
      have hlenT : ((sortMsgsDesc (db.msgs.filter (msgConds f))).drop k).length =
          (sortMsgsDesc (db.msgs.filter (msgConds f))).length - k :=
        List.length_drop ..
      have htake_len : (((sortMsgsDesc (db.msgs.filter (msgConds f))).drop k).take
          (limit + 1)).length = limit + 1 := by
        rw [List.length_take, hlenT]; omega
      have hmore : decide (limit <
          (((sortMsgsDesc (db.msgs.filter (msgConds f))).drop k).take
            (limit + 1)).length) = true := by
        rw [htake_len]; simp
      have hmsgs : (((sortMsgsDesc (db.msgs.filter (msgConds f))).drop k).take
          (limit + 1)).take limit =
          ((sortMsgsDesc (db.msgs.filter (msgConds f))).drop k).take limit := by
        rw [List.take_take]
        congr 1
        omega
      have hlast : (((sortMsgsDesc (db.msgs.filter (msgConds f))).drop k).take
          limit).getLast? = some ((sortMsgsDesc (db.msgs.filter (msgConds f))).get
            ⟨k + limit - 1, hj⟩) := by
        have hlim_le : limit ≤
            ((sortMsgsDesc (db.msgs.filter (msgConds f))).drop k).length := by
          rw [hlenT]; omega
        have hlen_take : (((sortMsgsDesc (db.msgs.filter (msgConds f))).drop k).take
            limit).length = limit := by
          rw [List.length_take]; omega
        rw [List.getLast?_eq_getElem?, hlen_take]
        rw [List.getElem?_take]
        rw [if_pos (by omega : limit - 1 < limit)]
        rw [List.getElem?_drop]
        rw [show k + (limit - 1) = k + limit - 1 from by omega]
        rw [List.getElem?_eq_getElem hj]
        rw [List.get_eq_getElem]
      have hpage := get_messages_eq db f limit cursor co _ hdec hrem
      rw [hmore] at hpage
      simp only [eq_self_iff_true, if_true] at hpage
      rw [hmsgs, hlast] at hpage
      -- the pivot row of the next cursor
      have hmmem : (sortMsgsDesc (db.msgs.filter (msgConds f))).get ⟨k + limit - 1, hj⟩
          ∈ db.msgs :=
        hSsub _ (List.get_mem _ _ _)
      have hdplain := hdates _ hmmem
      have hdec2 : cursorDecodeStep (some (encode_cursor
          ⟨((sortMsgsDesc (db.msgs.filter (msgConds f))).get ⟨k + limit - 1, hj⟩).id,
           ((sortMsgsDesc (db.msgs.filter (msgConds f))).get ⟨k + limit - 1, hj⟩).date⟩)) =
          .ok (some (.int ((sortMsgsDesc (db.msgs.filter (msgConds f))).get
              ⟨k + limit - 1, hj⟩).id,
            .str ((sortMsgsDesc (db.msgs.filter (msgConds f))).get
              ⟨k + limit - 1, hj⟩).date)) := by
        rw [cursorDecodeStep]
        rw [if_pos (encode_cursor_ne_empty _ _)]
        exact decode_encode_cursor _ _ hdplain
      have hrem2 : sortMsgsDesc (db.msgs.filter (fun r => msgConds f r &&
          afterCursor (some (.int ((sortMsgsDesc (db.msgs.filter (msgConds f))).get
              ⟨k + limit - 1, hj⟩).id,
            .str ((sortMsgsDesc (db.msgs.filter (msgConds f))).get
              ⟨k + limit - 1, hj⟩).date)) r)) =
          (sortMsgsDesc (db.msgs.filter (msgConds f))).drop (k + limit) := by
        have hcong : db.msgs.filter (fun r => msgConds f r &&
            afterCursor (some (.int ((sortMsgsDesc (db.msgs.filter (msgConds f))).get
                ⟨k + limit - 1, hj⟩).id,
              .str ((sortMsgsDesc (db.msgs.filter (msgConds f))).get
                ⟨k + limit - 1, hj⟩).date)) r) =
            db.msgs.filter (fun r => msgConds f r && decide (msgKey r <
              msgKey ((sortMsgsDesc (db.msgs.filter (msgConds f))).get
                ⟨k + limit - 1, hj⟩))) := by
          apply List.filter_congr
          intro r _
          rw [show afterCursor (some (.int ((sortMsgsDesc
              (db.msgs.filter (msgConds f))).get ⟨k + limit - 1, hj⟩).id,
              .str ((sortMsgsDesc (db.msgs.filter (msgConds f))).get
                ⟨k + limit - 1, hj⟩).date)) r =
            cursorCond (.int ((sortMsgsDesc (db.msgs.filter (msgConds f))).get
                ⟨k + limit - 1, hj⟩).id,
              .str ((sortMsgsDesc (db.msgs.filter (msgConds f))).get
                ⟨k + limit - 1, hj⟩).date) r from rfl]
          rw [cursorCond_eq_keyLt]
          rfl
        have hff : db.msgs.filter (fun r => msgConds f r && decide (msgKey r <
            msgKey ((sortMsgsDesc (db.msgs.filter (msgConds f))).get
              ⟨k + limit - 1, hj⟩))) =
            (db.msgs.filter (msgConds f)).filter (fun r => decide (msgKey r <
              msgKey ((sortMsgsDesc (db.msgs.filter (msgConds f))).get
                ⟨k + limit - 1, hj⟩))) := by
          rw [List.filter_filter]
          exact List.filter_congr (fun r _ => Bool.and_comm _ _)
        refine ((congrArg sortMsgsDesc hcong).trans
          ((congrArg sortMsgsDesc hff).trans
            ((sortMsgsDesc_filter_comm (db.msgs.filter (msgConds f)) _
              (nodup_ids_filter _ hids)).trans ?_)))
        exact (strict_filter_drop _ hSgt (k + limit - 1) hj).trans
          (by rw [show k + limit - 1 + 1 = k + limit from by omega])
      have hlen2 : (sortMsgsDesc (db.msgs.filter (msgConds f))).length -
          (k + limit) < fuel := by omega
      have hrec := ih (k + limit) _ _ hdec2 hrem2 hlen2
      rw [paginateMessagesF, hpage]
      simp only [Bind.bind, Except.bind]
      rw [if_pos trivial, hrec]
      have hjoin : ((sortMsgsDesc (db.msgs.filter (msgConds f))).drop k).take limit ++
          (sortMsgsDesc (db.msgs.filter (msgConds f))).drop (k + limit) =
          (sortMsgsDesc (db.msgs.filter (msgConds f))).drop k := by
        rw [show (sortMsgsDesc (db.msgs.filter (msgConds f))).drop (k + limit) =
            ((sortMsgsDesc (db.msgs.filter (msgConds f))).drop k).drop limit by
          rw [List.drop_drop]]
        exact List.take_append_drop _ _
      exact congrArg Except.ok hjoin

/-- C1: for any store contents and filter set — in particular any fixed set
of messages in a chat — and any positive page size, repeatedly calling
get_messages_with_filters with each returned next_cursor until has_more is
false yields exactly the matching messages, each exactly once (the
concatenation of the pages is a permutation of the filtered table), in
strictly decreasing (date, id) order. The hypotheses are the schema
invariants: ids are unique because id is the primary key, and stored dates
are printable ASCII because they are datetime.isoformat output. -/
theorem claim_C1_pagination_exact (db : DB) (f : MsgFilters) (limit : Nat)
    (hlim : 1 ≤ limit)
    (hids : (db.msgs.map (fun m => m.id)).Nodup)
    (hdates : ∀ r ∈ db.msgs, ∀ c ∈ r.date.data, plainJsonChar c = true) :
    paginateMessages db f limit =
      .ok (sortMsgsDesc (db.msgs.filter (msgConds f))) ∧
    (sortMsgsDesc (db.msgs.filter (msgConds f))).Perm
      (db.msgs.filter (msgConds f)) ∧
    (sortMsgsDesc (db.msgs.filter (msgConds f))).Pairwise msgGt := by
  refine ⟨?_, List.perm_insertionSort msgGe _,
    sortMsgsDesc_pairwise_gt (nodup_ids_filter _ hids)⟩
  have hrem : sortMsgsDesc (db.msgs.filter
      (fun m => msgConds f m && afterCursor none m)) =
      (sortMsgsDesc (db.msgs.filter (msgConds f))).drop 0 := by
    rw [List.drop_zero]
    exact congrArg sortMsgsDesc (List.filter_congr (fun m _ => by
      rw [show afterCursor none m = true from rfl, Bool.and_true]))
  have hlen : (sortMsgsDesc (db.msgs.filter (msgConds f))).length - 0 <
      db.msgs.length + 1 := by
    have e1 : (sortMsgsDesc (db.msgs.filter (msgConds f))).length =
        (db.msgs.filter (msgConds f)).length :=
      (List.perm_insertionSort msgGe _).length_eq
    have e2 := List.length_filter_le (msgConds f) db.msgs
    omega
  have h0 := paginate_loop db f limit hlim hids hdates (db.msgs.length + 1)
    0 none none rfl hrem hlen
  rw [List.drop_zero] at h0
  rw [paginateMessages]
  exact h0

theorem claim_C1_pagination_exact_witness :
    (1 ≤ 2 ∧ (scenDB.msgs.map (fun m => m.id)).Nodup ∧
      (∀ r ∈ scenDB.msgs, ∀ c ∈ r.date.data, plainJsonChar c = true)) ∧
    (paginateMessages scenDB scenFilters 2 =
        .ok (sortMsgsDesc (scenDB.msgs.filter (msgConds scenFilters))) ∧
      (sortMsgsDesc (scenDB.msgs.filter (msgConds scenFilters))).Perm
        (scenDB.msgs.filter (msgConds scenFilters)) ∧
      (sortMsgsDesc (scenDB.msgs.filter (msgConds scenFilters))).Pairwise msgGt) :=
  ⟨⟨by decide, by decide, by decide⟩,
   claim_C1_pagination_exact scenDB scenFilters 2 (by decide) (by decide)
     (by decide)⟩

end TeleConvo
